import Mathlib

/-!
# Verification of the collaborate-code OT engine

A shallow embedding of the server core of the collaborate-code
collaborative editor (`transform.py`, `document.py`, and the `joined`
handler of `server.py`), together with proofs and refutations of the
specified properties of the operation-transformation (OT) engine and the
revision-log protocol.

Python `int` is modelled as `Int`; Python `list` indexing, `insert`,
`pop` and slicing are modelled by the `py*` helpers below, which follow
Python's semantics exactly (negative indexes count from the end, out of
range indexing raises, so those helpers return `Option`; `insert` and
slices clamp and never raise).  Executions of the source that raise an
exception are modelled as `none`.
-/

namespace CollabCode

/-- Resolve a Python sequence index `i` against a sequence of length `n`:
negative indexes count from the end, and the result must land in
`[0, n)`, otherwise Python raises `IndexError` (`none`). -/
def pyIdx (n : Nat) (i : Int) : Option Nat :=
  let j : Int := if i < 0 then (n : Int) + i else i
  if 0 ≤ j ∧ j < (n : Int) then some j.toNat else none

/-- Python `l[i]` for a list. -/
def pyGet {α : Type} (l : List α) (i : Int) : Option α :=
  (pyIdx l.length i).bind fun j => l[j]?

/-- Python `l[i] = x` for a list. -/
def pySet {α : Type} (l : List α) (i : Int) (x : α) : Option (List α) :=
  (pyIdx l.length i).map fun j => l.set j x

/-- Python `l.insert(i, x)`: the index is clamped into `[0, len(l)]`,
never raising. -/
def pyInsert {α : Type} (l : List α) (i : Int) (x : α) : List α :=
  let j : Int := if i < 0 then max ((l.length : Int) + i) 0 else min i (l.length : Int)
  l.insertIdx j.toNat x

/-- Python `l.pop(i)`: returns the popped element and the remaining list,
raising (`none`) when the resolved index is out of range. -/
def pyPop {α : Type} (l : List α) (i : Int) : Option (α × List α) :=
  (pyIdx l.length i).bind fun j => (l[j]?).map fun x => (x, l.eraseIdx j)

/-- Python slice `l[:i]` (clamping, never raises). -/
def pySliceTo {α : Type} (l : List α) (i : Int) : List α :=
  l.take (if i < 0 then ((l.length : Int) + i).toNat else i.toNat)

/-- Python slice `l[i:]` (clamping, never raises). -/
def pySliceFrom {α : Type} (l : List α) (i : Int) : List α :=
  l.drop (if i < 0 then ((l.length : Int) + i).toNat else i.toNat)

/-- Python `range(a, b)` as a list of integers. -/
def intRange (a b : Int) : List Int :=
  (List.range (b - a).toNat).map fun (k : Nat) => a + (k : Int)

/-! ## `transform.py`: the operation model -/

/-- `Position` from `transform.py`: a (row, column) pair of Python ints. -/
structure Position where
  row : Int
  column : Int
deriving DecidableEq, Repr

/-- The `Operation` hierarchy of `transform.py`
(`InsertOperation`, `DeleteOperation`, `IdentityOperation`)
as a tagged variant. -/
inductive Operation where
  | insert (position : Position) (character : Char) (author : String)
  | delete (position : Position) (author : String)
  | identity (author : String)
deriving DecidableEq, Repr

/-- The `author` attribute common to all three operation classes. -/
def Operation.author : Operation → String
  | .insert _ _ a => a
  | .delete _ a => a
  | .identity a => a

/-- A Python/JSON value, used to model the `get_list_structure`
serializations (nested lists of strings and ints). -/
inductive PyVal where
  | s (v : String)
  | i (v : Int)
  | l (v : List PyVal)

/-- `Position.to_list_structure`: `[row, column]`. -/
def Position.to_list_structure (p : Position) : PyVal :=
  .l [.i p.row, .i p.column]

/-- `get_list_structure` of the three operation classes:
`['INS', [row, column], character, author]`, `['DEL', [row, column], author]`,
`['ID', author]`. -/
def Operation.get_list_structure : Operation → PyVal
  | .insert p c a => .l [.s "INS", p.to_list_structure, .s (String.singleton c), .s a]
  | .delete p a => .l [.s "DEL", p.to_list_structure, .s a]
  | .identity a => .l [.s "ID", .s a]

/-! ## `transform.py`: the transformation functions -/

/-- `is_op_before` from `transform.py`, verbatim, including the
`op_1.position.row == op_1.position.row` comparison found in the source
(both sides of that `==` read `op_1`). -/
def is_op_before (op_1 op_2 : Position) : Prop :=
  op_1.row < op_2.row ∨ (op_1.row = op_1.row ∧ op_1.column < op_2.column)

instance (p q : Position) : Decidable (is_op_before p q) :=
  inferInstanceAs (Decidable (_ ∨ _))

/-- `is_op_same_pos` from `transform.py`. -/
def is_op_same_pos (op_1 op_2 : Position) : Prop :=
  op_1.row = op_2.row ∧ op_1.column = op_2.column

instance (p q : Position) : Decidable (is_op_same_pos p q) :=
  inferInstanceAs (Decidable (_ ∧ _))

/-- `t_ii` from `transform.py`: transform insert `op_1` against insert
`op_2` (executed first).  Arguments are the fields of the two
`InsertOperation`s. -/
def t_ii (p1 : Position) (c1 : Char) (a1 : String)
    (p2 : Position) (c2 : Char) (a2 : String) : Operation :=
  if is_op_before p1 p2 ∨ (is_op_same_pos p1 p2 ∧ a1 < a2) then
    .insert p1 c1 a1
  else
    if c2 = '\n' then
      .insert ⟨p1.row + 1, p1.column⟩ c1 a1
    else if p2.row = p1.row then
      .insert ⟨p1.row, p1.column + 1⟩ c1 a1
    else
      .insert p1 c1 a1

/-- `t_id` from `transform.py`: transform insert `op_1` against delete
`op_2` (executed first). -/
def t_id (p1 : Position) (c1 : Char) (a1 : String)
    (p2 : Position) : Operation :=
  if is_op_before p1 p2 ∨ is_op_same_pos p1 p2 then
    .insert p1 c1 a1
  else
    if p2.column = -1 then
      .insert ⟨p1.row - 1, p1.column⟩ c1 a1
    else if p2.row = p1.row then
      .insert ⟨p1.row, p1.column - 1⟩ c1 a1
    else
      .insert p1 c1 a1

/-- `t_di` from `transform.py`: transform delete `op_1` against insert
`op_2` (executed first). -/
def t_di (p1 : Position) (a1 : String)
    (p2 : Position) (c2 : Char) : Operation :=
  if is_op_before p1 p2 then
    .delete p1 a1
  else
    if c2 = '\n' then
      .delete ⟨p1.row + 1, p1.column⟩ a1
    else if p2.row = p1.row then
      .delete ⟨p1.row, p1.column + 1⟩ a1
    else
      .delete p1 a1

/-- `t_dd` from `transform.py`: transform delete `op_1` against delete
`op_2` (executed first). -/
def t_dd (p1 : Position) (a1 : String)
    (p2 : Position) (a2 : String) : Operation :=
  if is_op_before p1 p2 then
    .delete p1 a1
  else if ¬ is_op_same_pos p1 p2 then
    if p2.column = -1 then
      .delete ⟨p1.row - 1, p1.column⟩ a1
    else if p2.row = p1.row then
      .delete ⟨p1.row, p1.column - 1⟩ a1
    else
      .delete p1 a1
  else
    .identity a1

/-- `xform` from `transform.py`: transform `op_1` against `op_2`
(executed first), short-circuiting when either operand is the identity
and dispatching on the pair of identities otherwise. -/
def xform (op_1 op_2 : Operation) : Operation :=
  match op_1, op_2 with
  | .identity _, _ => op_1
  | _, .identity _ => op_1
  | .insert p1 c1 a1, .insert p2 c2 a2 => t_ii p1 c1 a1 p2 c2 a2
  | .insert p1 c1 a1, .delete p2 _ => t_id p1 c1 a1 p2
  | .delete p1 a1, .insert p2 c2 _ => t_di p1 a1 p2 c2
  | .delete p1 a1, .delete p2 a2 => t_dd p1 a1 p2 a2

/-- The inner loop of `xform_multiple`: fold one left operation
(`current_left`) across `current_rights`, producing `next_rights`
(each right transformed against the evolving left) and the final
transformed left operation. -/
def xformInner (current_left : Operation) :
    List Operation → List Operation × Operation
  | [] => ([], current_left)
  | current_right :: rest =>
    let next_right := xform current_right current_left
    let new_left := xform current_left current_right
    let step := xformInner new_left rest
    (next_right :: step.1, step.2)

/-- The outer loop of `xform_multiple`: iterate over `op_lefts`,
threading `current_rights`, collecting `to_apply_right` and finishing
with `to_apply_left := current_rights`. -/
def xformOuter : List Operation → List Operation → List Operation × List Operation
  | [], current_rights => (current_rights, [])
  | opl :: rest, current_rights =>
    let step := xformInner opl current_rights
    let recur := xformOuter rest step.1
    (recur.1, step.2 :: recur.2)

/-- `xform_multiple` from `transform.py`: transform two lists of
operations against each other, returning
`(to_apply_left, to_apply_right)`. -/
def xform_multiple (op_lefts op_rights : List Operation) :
    List Operation × List Operation :=
  xformOuter op_lefts op_rights

/-! ## `document.py`: the text buffer -/

/-- The `_text` field of class `Text`: a list of rows of characters. -/
abbrev TextBuf := List (List Char)

/-- `Text.__init__`: the buffer starts as `[[]]`. -/
def Text.initial : TextBuf := [[]]

/-- `Text.get_text`: rows joined by newlines. -/
def Text.get_text (t : TextBuf) : String :=
  String.intercalate "\n" (t.map fun row => String.mk row)

/-- `Text.apply` from `document.py`, applied to an explicit buffer.
Executions in which a Python list operation raises yield `none`. -/
def Text.apply (t : TextBuf) (operation : Operation) : Option TextBuf :=
  match operation with
  | .insert pos ch _ =>
    if ch = '\n' then
      (pyGet t pos.row).bind fun row =>
        (pySet t pos.row (pySliceTo row pos.column)).map fun t1 =>
          pyInsert t1 (pos.row + 1) (pySliceFrom row pos.column)
    else
      (pyGet t pos.row).bind fun row =>
        pySet t pos.row (pyInsert row pos.column ch)
  | .delete pos _ =>
    if pos.column = -1 then
      (pyPop t pos.row).bind fun rt =>
        (pyGet rt.2 (pos.row - 1)).bind fun prev =>
          pySet rt.2 (pos.row - 1) (prev ++ rt.1)
    else
      (pyGet t pos.row).bind fun row =>
        (pyPop row pos.column).bind fun cr =>
          pySet t pos.row cr.2
  | .identity _ => some t

/-- Sequential application of a list of operations to a buffer
(the loop of `Document.apply_changes`). -/
def Text.applyAll (t : TextBuf) (ops : List Operation) : Option TextBuf :=
  ops.foldlM Text.apply t

/-! ## `document.py`: revisions and documents -/

/-- Class `Revision` from `document.py`. -/
structure Revision where
  changes : List Operation
  author : String
  revision_num : Int
deriving DecidableEq

/-- Lookup in a Python dict modelled as an insertion-ordered
association list. -/
def dictGet (d : List (String × Int)) (k : String) : Option Int :=
  (d.find? fun kv => kv.1 == k).map fun kv => kv.2

/-- Python dict assignment `d[k] = v`: updates the existing entry in
place, or appends a fresh one. -/
def dictSet (d : List (String × Int)) (k : String) (v : Int) :
    List (String × Int) :=
  match d with
  | [] => [(k, v)]
  | kv :: rest => if kv.1 == k then (k, v) :: rest else kv :: dictSet rest k v

/-- Class `Document` from `document.py`: the revision log, the
session-to-acknowledged-revision map, and the text buffer. -/
structure Document where
  revisions : List Revision
  clients : List (String × Int)
  text : TextBuf
deriving DecidableEq

/-- `Document.__init__`. -/
def Document.initial : Document := ⟨[], [], Text.initial⟩

/-- `Document.get_last_revision_num`: `len(self._revisions) - 1`. -/
def Document.get_last_revision_num (d : Document) : Int :=
  (d.revisions.length : Int) - 1

/-- `Document.get_changes_since_revision_num`, materialized to a list
(as `Document.add_changes` does): concatenate `rev.changes` for `rev`
ranging over `self._revisions[i]` for
`i in range(revision_num + 1, last + 1)`, with Python list indexing. -/
def Document.get_changes_since_revision_num (d : Document) (revision_num : Int) :
    Option (List Operation) :=
  (intRange (revision_num + 1) (d.get_last_revision_num + 1)).foldlM
    (fun acc i => (pyGet d.revisions i).map fun rev => acc ++ rev.changes) []

/-- `Document.add_revision`: append a revision numbered
`get_last_revision_num() + 1` and return the updated document and the
new revision number. -/
def Document.add_revision (d : Document) (changes : List Operation)
    (author : String) : Document × Int :=
  let revision_num := d.get_last_revision_num + 1
  (⟨d.revisions ++ [⟨changes, author, revision_num⟩], d.clients, d.text⟩,
   revision_num)

/-- `Document.apply_changes`: apply a list of changes to the text. -/
def Document.apply_changes (d : Document) (changes : List Operation) :
    Option Document :=
  (Text.applyAll d.text changes).map fun t => ⟨d.revisions, d.clients, t⟩

/-- `Document.add_changes` from `document.py`: the submit operation.
Returns the updated document and the serialized reply for the client;
`none` models the raising executions (unknown author, a raising
revision lookup, or a raising `Text.apply`). -/
def Document.add_changes (d : Document) (changes : List Operation)
    (author : String) : Option (Document × List PyVal) :=
  (dictGet d.clients author).bind fun base =>
  (d.get_changes_since_revision_num base).bind fun changes_since =>
  if changes.length = 0 then
    some (⟨d.revisions, dictSet d.clients author d.get_last_revision_num, d.text⟩,
          changes_since.map Operation.get_list_structure)
  else
    let pair := xform_multiple changes changes_since
    let dr := d.add_revision pair.2 author
    (dr.1.apply_changes pair.2).map fun d2 =>
      (⟨d2.revisions, dictSet d2.clients author dr.2, d2.text⟩,
       pair.1.map Operation.get_list_structure)

/-- The `joined` handler of `server.py`, restricted to its effect on the
document: `document.clients[session_id] = document.get_last_revision_num()`. -/
def Document.join (d : Document) (session_id : String) : Document :=
  ⟨d.revisions, dictSet d.clients session_id d.get_last_revision_num, d.text⟩

/-- Documents reachable from a fresh document by `join`s and
(non-raising) `add_changes` submissions. -/
inductive Document.Reachable : Document → Prop
  | initial : Document.Reachable Document.initial
  | join (d : Document) (s : String) :
      Document.Reachable d → Document.Reachable (d.join s)
  | submit (d d' : Document) (ops : List Operation) (a : String)
      (reply : List PyVal) :
      Document.Reachable d → d.add_changes ops a = some (d', reply) →
      Document.Reachable d'

/-! ## Validity of operations against a buffer

These predicates formalize the spec's side conditions: an operation is
*valid* against a buffer when applying it stays within the bounds the
spec documents (§4.1), and *row-local* when it neither splits rows
(newline insert) nor joins them (sentinel `column = -1` delete). -/

/-- The row of a buffer at a (nonnegative) integer index. -/
def rowAt (t : TextBuf) (r : Int) : List Char := t.getD r.toNat []

/-- Validity of an operation against a buffer (§4.1 of the spec). -/
def Valid (t : TextBuf) : Operation → Prop
  | .insert p _ _ =>
      0 ≤ p.row ∧ p.row < (t.length : Int) ∧ 0 ≤ p.column ∧
        p.column ≤ ((rowAt t p.row).length : Int)
  | .delete p _ =>
      (p.column = -1 ∧ 1 ≤ p.row ∧ p.row < (t.length : Int)) ∨
      (0 ≤ p.column ∧ 0 ≤ p.row ∧ p.row < (t.length : Int) ∧
        p.column < ((rowAt t p.row).length : Int))
  | .identity _ => True

instance (t : TextBuf) (op : Operation) : Decidable (Valid t op) :=
  match op with
  | .insert _ _ _ => inferInstanceAs (Decidable (_ ∧ _))
  | .delete _ _ => inferInstanceAs (Decidable (_ ∨ _))
  | .identity _ => inferInstanceAs (Decidable True)

/-- An operation is row-local when it does not split or join rows:
inserts of a character other than newline, deletes with a column other
than the sentinel `-1`, and the identity. -/
def RowLocal : Operation → Prop
  | .insert _ c _ => c ≠ '\n'
  | .delete p _ => p.column ≠ -1
  | .identity _ => True

instance (op : Operation) : Decidable (RowLocal op) :=
  match op with
  | .insert _ _ _ => inferInstanceAs (Decidable (_ ≠ _))
  | .delete _ _ => inferInstanceAs (Decidable (_ ≠ _))
  | .identity _ => inferInstanceAs (Decidable True)

/-- Total application of a valid row-local operation: proven below
(`Text.apply_eq_applyRL`) to agree with `Text.apply` on valid row-local
operations. -/
def applyRL (t : TextBuf) : Operation → TextBuf
  | .insert p ch _ => t.set p.row.toNat ((rowAt t p.row).insertIdx p.column.toNat ch)
  | .delete p _ => t.set p.row.toNat ((rowAt t p.row).eraseIdx p.column.toNat)
  | .identity _ => t

/-- Total sequential application of valid row-local operations. -/
def applyAllRL (t : TextBuf) (ops : List Operation) : TextBuf :=
  ops.foldl applyRL t

/-- A list of operations is sequentially valid and row-local from a
buffer when each operation is valid and row-local against the buffer
obtained by applying the previous ones. -/
def SeqValid (t : TextBuf) : List Operation → Prop
  | [] => True
  | op :: rest => Valid t op ∧ RowLocal op ∧ SeqValid (applyRL t op) rest

def decSeqValid (t : TextBuf) (ops : List Operation) : Decidable (SeqValid t ops) :=
  match ops with
  | [] => isTrue trivial
  | op :: rest =>
    have : Decidable (SeqValid (applyRL t op) rest) := decSeqValid _ rest
    inferInstanceAs (Decidable (_ ∧ _ ∧ _))

instance (t : TextBuf) (ops : List Operation) : Decidable (SeqValid t ops) :=
  decSeqValid t ops

/-! ## Basic lemmas about the Python-list primitives -/

lemma pyIdx_of_bounds {n : Nat} {i : Int} (h0 : 0 ≤ i) (h1 : i < (n : Int)) :
    pyIdx n i = some i.toNat := by
  unfold pyIdx
  rw [if_neg (by omega : ¬ i < 0), if_pos ⟨h0, h1⟩]

lemma pyGet_of_bounds {α : Type} {l : List α} {i : Int}
    (h0 : 0 ≤ i) (h1 : i < (l.length : Int)) :
    pyGet l i = l[i.toNat]? := by
  rw [pyGet, pyIdx_of_bounds h0 h1, Option.some_bind]

lemma pySet_of_bounds {α : Type} {l : List α} {i : Int} (x : α)
    (h0 : 0 ≤ i) (h1 : i < (l.length : Int)) :
    pySet l i x = some (l.set i.toNat x) := by
  rw [pySet, pyIdx_of_bounds h0 h1, Option.map_some']

lemma pyInsert_of_bounds {α : Type} {l : List α} {i : Int} (x : α)
    (h0 : 0 ≤ i) (h1 : i ≤ (l.length : Int)) :
    pyInsert l i x = l.insertIdx i.toNat x := by
  unfold pyInsert
  rw [if_neg (by omega : ¬ i < 0), min_eq_left h1]

lemma pyPop_of_bounds {α : Type} {l : List α} {i : Int}
    (h0 : 0 ≤ i) (h1 : i < (l.length : Int)) :
    pyPop l i = (l[i.toNat]?).map fun x => (x, l.eraseIdx i.toNat) := by
  rw [pyPop, pyIdx_of_bounds h0 h1, Option.some_bind]

lemma rowAt_of_bounds {t : TextBuf} {r : Int} (h0 : 0 ≤ r)
    (h1 : r < (t.length : Int)) :
    t[r.toNat]? = some (rowAt t r) := by
  have hb : r.toNat < t.length := by omega
  rw [rowAt, List.getD_eq_getElem?_getD, List.getElem?_eq_getElem hb,
    Option.getD_some]

lemma rowAt_set_self {t : TextBuf} {r : Int} (v : List Char) (h0 : 0 ≤ r)
    (h1 : r < (t.length : Int)) :
    rowAt (t.set r.toNat v) r = v := by
  have hb : r.toNat < t.length := by omega
  rw [rowAt, List.getD_eq_getElem?_getD, List.getElem?_set_self hb, Option.getD_some]

lemma rowAt_set_ne {t : TextBuf} {r r' : Int} (v : List Char)
    (h : r'.toNat ≠ r.toNat) :
    rowAt (t.set r'.toNat v) r = rowAt t r := by
  rw [rowAt, rowAt, List.getD_eq_getElem?_getD, List.getD_eq_getElem?_getD,
    List.getElem?_set_ne h]

/-- On valid row-local operations, `Text.apply` never raises and agrees
with the total function `applyRL`. -/
lemma Text.apply_eq_applyRL {t : TextBuf} {op : Operation}
    (hv : Valid t op) (hr : RowLocal op) :
    Text.apply t op = some (applyRL t op) := by
  cases op with
  | identity a => rfl
  | insert p c a =>
    obtain ⟨h0, h1, h2, h3⟩ := hv
    have hc : c ≠ '\n' := hr
    rw [Text.apply, if_neg hc, pyGet_of_bounds h0 h1, rowAt_of_bounds h0 h1,
      Option.some_bind, pyInsert_of_bounds c h2 h3,
      pySet_of_bounds _ h0 (by simpa using h1), applyRL]
  | delete p a =>
    have hc : p.column ≠ -1 := hr
    rcases hv with ⟨hc', _⟩ | ⟨h2, h0, h1, h3⟩
    · exact absurd hc' hc
    · rw [Text.apply, if_neg hc, pyGet_of_bounds h0 h1, rowAt_of_bounds h0 h1,
        Option.some_bind, pyPop_of_bounds h2 h3]
      have hb : p.column.toNat < (rowAt t p.row).length := by omega
      rw [List.getElem?_eq_getElem hb, Option.map_some', Option.some_bind,
        pySet_of_bounds _ h0 (by simpa using h1), applyRL]

/-! ## Characterizations of the transform functions -/

lemma is_op_before_iff (p q : Position) :
    is_op_before p q ↔ (p.row < q.row ∨ p.column < q.column) := by
  simp [is_op_before]

lemma xform_ins_ins (p1 p2 : Position) (c1 c2 : Char) (a1 a2 : String) :
    xform (.insert p1 c1 a1) (.insert p2 c2 a2) = t_ii p1 c1 a1 p2 c2 a2 := rfl

lemma xform_ins_del (p1 p2 : Position) (c1 : Char) (a1 a2 : String) :
    xform (.insert p1 c1 a1) (.delete p2 a2) = t_id p1 c1 a1 p2 := rfl

lemma xform_del_ins (p1 p2 : Position) (c2 : Char) (a1 a2 : String) :
    xform (.delete p1 a1) (.insert p2 c2 a2) = t_di p1 a1 p2 c2 := rfl

lemma xform_del_del (p1 p2 : Position) (a1 a2 : String) :
    xform (.delete p1 a1) (.delete p2 a2) = t_dd p1 a1 p2 a2 := rfl

lemma t_ii_keep {p1 p2 : Position} {a1 a2 : String} (c1 c2 : Char)
    (h : is_op_before p1 p2 ∨ (is_op_same_pos p1 p2 ∧ a1 < a2)) :
    t_ii p1 c1 a1 p2 c2 a2 = .insert p1 c1 a1 := by
  unfold t_ii; rw [if_pos h]

lemma t_ii_newline {p1 p2 : Position} {a1 a2 : String} {c2 : Char} (c1 : Char)
    (h : ¬ (is_op_before p1 p2 ∨ (is_op_same_pos p1 p2 ∧ a1 < a2)))
    (hc : c2 = '\n') :
    t_ii p1 c1 a1 p2 c2 a2 = .insert ⟨p1.row + 1, p1.column⟩ c1 a1 := by
  unfold t_ii; rw [if_neg h, if_pos hc]

lemma t_ii_shift {p1 p2 : Position} {a1 a2 : String} {c2 : Char} (c1 : Char)
    (h : ¬ (is_op_before p1 p2 ∨ (is_op_same_pos p1 p2 ∧ a1 < a2)))
    (hc : c2 ≠ '\n') (hr : p2.row = p1.row) :
    t_ii p1 c1 a1 p2 c2 a2 = .insert ⟨p1.row, p1.column + 1⟩ c1 a1 := by
  unfold t_ii; rw [if_neg h, if_neg hc, if_pos hr]

lemma t_ii_diff_row {p1 p2 : Position} {c2 : Char} (c1 : Char) (a1 a2 : String)
    (hc : c2 ≠ '\n') (hr : p2.row ≠ p1.row) :
    t_ii p1 c1 a1 p2 c2 a2 = .insert p1 c1 a1 := by
  unfold t_ii
  split_ifs <;> rfl

lemma t_id_keep {p1 p2 : Position} (c1 : Char) (a1 : String)
    (h : is_op_before p1 p2 ∨ is_op_same_pos p1 p2) :
    t_id p1 c1 a1 p2 = .insert p1 c1 a1 := by
  unfold t_id; rw [if_pos h]

lemma t_id_shift {p1 p2 : Position} (c1 : Char) (a1 : String)
    (h : ¬ (is_op_before p1 p2 ∨ is_op_same_pos p1 p2))
    (hc : p2.column ≠ -1) (hr : p2.row = p1.row) :
    t_id p1 c1 a1 p2 = .insert ⟨p1.row, p1.column - 1⟩ c1 a1 := by
  unfold t_id; rw [if_neg h, if_neg hc, if_pos hr]

lemma t_id_diff_row {p1 p2 : Position} (c1 : Char) (a1 : String)
    (hc : p2.column ≠ -1) (hr : p2.row ≠ p1.row) :
    t_id p1 c1 a1 p2 = .insert p1 c1 a1 := by
  unfold t_id
  split_ifs <;> rfl

lemma t_di_keep {p1 p2 : Position} (a1 : String) (c2 : Char)
    (h : is_op_before p1 p2) :
    t_di p1 a1 p2 c2 = .delete p1 a1 := by
  unfold t_di; rw [if_pos h]

lemma t_di_shift {p1 p2 : Position} (a1 : String) {c2 : Char}
    (h : ¬ is_op_before p1 p2) (hc : c2 ≠ '\n') (hr : p2.row = p1.row) :
    t_di p1 a1 p2 c2 = .delete ⟨p1.row, p1.column + 1⟩ a1 := by
  unfold t_di; rw [if_neg h, if_neg hc, if_pos hr]

lemma t_di_diff_row {p1 p2 : Position} (a1 : String) {c2 : Char}
    (hc : c2 ≠ '\n') (hr : p2.row ≠ p1.row) :
    t_di p1 a1 p2 c2 = .delete p1 a1 := by
  unfold t_di
  split_ifs <;> rfl

lemma t_dd_keep {p1 p2 : Position} (a1 a2 : String)
    (h : is_op_before p1 p2) :
    t_dd p1 a1 p2 a2 = .delete p1 a1 := by
  unfold t_dd; rw [if_pos h]

lemma t_dd_shift {p1 p2 : Position} (a1 a2 : String)
    (h : ¬ is_op_before p1 p2) (hs : ¬ is_op_same_pos p1 p2)
    (hc : p2.column ≠ -1) (hr : p2.row = p1.row) :
    t_dd p1 a1 p2 a2 = .delete ⟨p1.row, p1.column - 1⟩ a1 := by
  unfold t_dd; rw [if_neg h, if_pos hs, if_neg hc, if_pos hr]

lemma t_dd_same {p1 p2 : Position} (a1 a2 : String)
    (h : ¬ is_op_before p1 p2) (hs : is_op_same_pos p1 p2) :
    t_dd p1 a1 p2 a2 = .identity a1 := by
  unfold t_dd; rw [if_neg h, if_neg (not_not_intro hs)]

lemma t_dd_diff_row {p1 p2 : Position} (a1 a2 : String)
    (hc : p2.column ≠ -1) (hr : p2.row ≠ p1.row) :
    t_dd p1 a1 p2 a2 = .delete p1 a1 := by
  unfold t_dd
  split_ifs with h1 h2
  · rfl
  · exact absurd h2.1.symm hr
  · rfl

lemma t_ii_shape (p1 p2 : Position) (c1 c2 : Char) (a1 a2 : String) :
    ∃ q, t_ii p1 c1 a1 p2 c2 a2 = .insert q c1 a1 := by
  unfold t_ii; split_ifs <;> exact ⟨_, rfl⟩

lemma t_id_shape (p1 p2 : Position) (c1 : Char) (a1 : String) :
    ∃ q, t_id p1 c1 a1 p2 = .insert q c1 a1 := by
  unfold t_id; split_ifs <;> exact ⟨_, rfl⟩

lemma t_di_shape (p1 p2 : Position) (a1 : String) (c2 : Char) :
    ∃ q, t_di p1 a1 p2 c2 = .delete q a1 := by
  unfold t_di; split_ifs <;> exact ⟨_, rfl⟩

lemma t_dd_shape (p1 p2 : Position) (a1 a2 : String) :
    (∃ q, t_dd p1 a1 p2 a2 = .delete q a1) ∨
      (is_op_same_pos p1 p2 ∧ t_dd p1 a1 p2 a2 = .identity a1) := by
  unfold t_dd
  split_ifs <;>
    first
      | exact Or.inl ⟨_, rfl⟩
      | exact Or.inr ⟨by assumption, rfl⟩

/-- Every transform preserves the author of its first operand. -/
lemma xform_author (op1 op2 : Operation) :
    (xform op1 op2).author = op1.author := by
  cases op1 with
  | identity a => cases op2 <;> rfl
  | insert p c a =>
    cases op2 with
    | identity a2 => rfl
    | insert p2 c2 a2 =>
      obtain ⟨q, hq⟩ := t_ii_shape p p2 c c2 a a2
      rw [xform_ins_ins, hq]
      rfl
    | delete p2 a2 =>
      obtain ⟨q, hq⟩ := t_id_shape p p2 c a
      rw [xform_ins_del, hq]
      rfl
  | delete p a =>
    cases op2 with
    | identity a2 => rfl
    | insert p2 c2 a2 =>
      obtain ⟨q, hq⟩ := t_di_shape p p2 a c2
      rw [xform_del_ins, hq]
      rfl
    | delete p2 a2 =>
      rcases t_dd_shape p p2 a a2 with ⟨q, hq⟩ | ⟨hs, hq⟩ <;>
        rw [xform_del_del, hq] <;> rfl

/-! ## Lengths through the diamond -/

lemma xformInner_length (a : Operation) (R : List Operation) :
    (xformInner a R).1.length = R.length := by
  induction R generalizing a with
  | nil => rfl
  | cons r rest ih => simp only [xformInner, List.length_cons, ih]

lemma xformOuter_length_left (L : List Operation) :
    ∀ R : List Operation, (xformOuter L R).1.length = R.length := by
  induction L with
  | nil => intro R; rfl
  | cons l rest ih =>
    intro R
    simp only [xformOuter]
    rw [ih, xformInner_length]

lemma xformOuter_length_right (L : List Operation) :
    ∀ R : List Operation, (xformOuter L R).2.length = L.length := by
  induction L with
  | nil => intro R; rfl
  | cons l rest ih =>
    intro R
    simp only [xformOuter, List.length_cons]
    rw [ih]

/-! ## Inversion of `Document.add_changes` -/

/-- Inversion of a successful empty submission. -/
lemma add_changes_empty_inv {d : Document} {author : String}
    {d' : Document} {reply : List PyVal}
    (h : d.add_changes [] author = some (d', reply)) :
    ∃ base concurrent,
      dictGet d.clients author = some base ∧
      d.get_changes_since_revision_num base = some concurrent ∧
      d' = ⟨d.revisions, dictSet d.clients author d.get_last_revision_num, d.text⟩ ∧
      reply = concurrent.map Operation.get_list_structure := by
  unfold Document.add_changes at h
  rw [Option.bind_eq_some] at h
  obtain ⟨base, hbase, h⟩ := h
  rw [Option.bind_eq_some] at h
  obtain ⟨concurrent, hconc, h⟩ := h
  rw [if_pos (show ([] : List Operation).length = 0 from rfl), Option.some_inj] at h
  obtain ⟨h1, h2⟩ := Prod.mk.injEq .. ▸ h
  exact ⟨base, concurrent, hbase, hconc, h1.symm, h2.symm⟩

/-- Inversion of a successful non-empty submission. -/
lemma add_changes_nonempty_inv {d : Document} {ops : List Operation} {author : String}
    {d' : Document} {reply : List PyVal}
    (hne : ops.length ≠ 0)
    (h : d.add_changes ops author = some (d', reply)) :
    ∃ base concurrent t2,
      dictGet d.clients author = some base ∧
      d.get_changes_since_revision_num base = some concurrent ∧
      Text.applyAll d.text (xform_multiple ops concurrent).2 = some t2 ∧
      d' = ⟨d.revisions ++
              [⟨(xform_multiple ops concurrent).2, author, d.get_last_revision_num + 1⟩],
            dictSet d.clients author (d.get_last_revision_num + 1), t2⟩ ∧
      reply = (xform_multiple ops concurrent).1.map Operation.get_list_structure := by
  unfold Document.add_changes at h
  rw [Option.bind_eq_some] at h
  obtain ⟨base, hbase, h⟩ := h
  rw [Option.bind_eq_some] at h
  obtain ⟨concurrent, hconc, h⟩ := h
  rw [if_neg hne] at h
  unfold Document.apply_changes Document.add_revision at h
  rw [Option.map_map, Option.map_eq_some'] at h
  obtain ⟨t2, ht2, h⟩ := h
  obtain ⟨h1, h2⟩ := Prod.mk.injEq .. ▸ h
  exact ⟨base, concurrent, t2, hbase, hconc, ht2, h1.symm, h2.symm⟩

/-! ## The claims -/

/-- C3: the positional predicate `is_op_before` does not satisfy the
spec's definition of `before`: at positions (row 1, column 0) and
(row 0, column 5) the source predicate holds, although the first
position is on a strictly later row, so the spec's
`a.row < b.row ∨ (a.row = b.row ∧ a.column < b.column)` is false there.
This is the row-comparison tautology slip in the source. -/
theorem c3_is_op_before_bug :
    is_op_before ⟨1, 0⟩ ⟨0, 5⟩ ∧
      ¬ ((1 : Int) < (0 : Int) ∨ ((1 : Int) = (0 : Int) ∧ (0 : Int) < (5 : Int))) := by
  decide

/-- C7: delete coalescing.  Transforming a delete against a concurrent
delete at the same position yields the identity operation (carrying the
first operand's author), for every position and any authors. -/
theorem c7_delete_coalescing (p : Position) (a1 a2 : String) :
    xform (.delete p a1) (.delete p a2) = .identity a1 := by
  rw [xform_del_del]
  exact t_dd_same a1 a2 (by simp [is_op_before]) ⟨rfl, rfl⟩

/-- C8 (counterexample): for two same-position inserts with authors
"A" < "B" where the first-authored insert is a newline, transforming the
"B" insert against the "A" insert shifts it to the next row, not to the
next column of the same row as the claim states. -/
theorem c8_counterexample :
    xform (.insert ⟨0, 0⟩ 'x' "B") (.insert ⟨0, 0⟩ '\n' "A") =
        .insert ⟨1, 0⟩ 'x' "B" ∧
      ("A" : String) < "B" ∧
      xform (.insert ⟨0, 0⟩ 'x' "B") (.insert ⟨0, 0⟩ '\n' "A") ≠
        .insert ⟨0, 1⟩ 'x' "B" := by
  have hBA : ¬ (("B" : String) < "A") := by
    rw [String.lt_iff_toList_lt]; decide
  have hx : xform (.insert ⟨0, 0⟩ 'x' "B") (.insert ⟨0, 0⟩ '\n' "A") =
      .insert ⟨1, 0⟩ 'x' "B" := by
    rw [xform_ins_ins]
    refine t_ii_newline 'x' ?_ rfl
    rintro (h | ⟨-, h⟩)
    · exact absurd h (by decide)
    · exact hBA h
  refine ⟨hx, ?_, ?_⟩
  · rw [String.lt_iff_toList_lt]; decide
  · rw [hx]; decide

/-- C8 (amended): for two inserts at the same position with authors
`a < b`, the insert authored by `a` passes through `xform` unchanged;
the insert authored by `b` is shifted one column forward on the same row
when `a`'s character is not a newline, and one row down (same column)
when `a`'s character is a newline. -/
theorem c8_author_tie (p : Position) (ca cb : Char) (a b : String)
    (hab : a < b) :
    xform (.insert p ca a) (.insert p cb b) = .insert p ca a ∧
    (ca ≠ '\n' →
      xform (.insert p cb b) (.insert p ca a) =
        .insert ⟨p.row, p.column + 1⟩ cb b) ∧
    (ca = '\n' →
      xform (.insert p cb b) (.insert p ca a) =
        .insert ⟨p.row + 1, p.column⟩ cb b) := by
  have hnb : ¬ (is_op_before p p ∨ (is_op_same_pos p p ∧ b < a)) := by
    rintro (h | ⟨-, h⟩)
    · simp [is_op_before] at h
    · exact absurd h (lt_asymm hab)
  refine ⟨?_, ?_, ?_⟩
  · rw [xform_ins_ins]
    exact t_ii_keep ca cb (Or.inr ⟨⟨rfl, rfl⟩, hab⟩)
  · intro hc
    rw [xform_ins_ins]
    exact t_ii_shift cb hnb hc rfl
  · intro hc
    rw [xform_ins_ins]
    exact t_ii_newline cb hnb hc

theorem c8_author_tie_witness :
    (("A" : String) < "B") ∧
    (xform (.insert ⟨0, 0⟩ 'q' "A") (.insert ⟨0, 0⟩ 'r' "B") =
        .insert ⟨0, 0⟩ 'q' "A" ∧
      ('q' ≠ '\n' →
        xform (.insert ⟨0, 0⟩ 'r' "B") (.insert ⟨0, 0⟩ 'q' "A") =
          .insert ⟨0, 0 + 1⟩ 'r' "B") ∧
      ('q' = '\n' →
        xform (.insert ⟨0, 0⟩ 'r' "B") (.insert ⟨0, 0⟩ 'q' "A") =
          .insert ⟨0 + 1, 0⟩ 'r' "B")) :=
  ⟨by rw [String.lt_iff_toList_lt]; decide,
    c8_author_tie ⟨0, 0⟩ 'q' 'r' "A" "B" (by rw [String.lt_iff_toList_lt]; decide)⟩

/-- C9: `xform_multiple` returns a pair whose first component has one
operation per right-hand operation and whose second component has one
operation per left-hand operation; consequently a successful non-empty
submission commits a revision with exactly one operation per submitted
client operation and replies with exactly one serialized operation per
concurrent server operation. -/
theorem c9_diamond_lengths :
    ∀ (L R : List Operation) (d : Document) (ops : List Operation)
      (author : String) (d' : Document) (reply : List PyVal)
      (base : Int) (concurrent : List Operation),
      ((xform_multiple L R).1.length = R.length ∧
        (xform_multiple L R).2.length = L.length) ∧
      (ops.length ≠ 0 →
        dictGet d.clients author = some base →
        d.get_changes_since_revision_num base = some concurrent →
        d.add_changes ops author = some (d', reply) →
        (∃ r, d'.revisions.getLast? = some r ∧ r.changes.length = ops.length) ∧
          reply.length = concurrent.length) := by
  intro L R d ops author d' reply base concurrent
  refine ⟨⟨xformOuter_length_left L R, xformOuter_length_right L R⟩, ?_⟩
  intro hne hbase hconc hadd
  obtain ⟨base', concurrent', t2, hbase', hconc', ht2, hd', hreply⟩ :=
    add_changes_nonempty_inv hne hadd
  rw [hbase'] at hbase
  rw [Option.some_inj] at hbase
  subst hbase
  rw [hconc'] at hconc
  rw [Option.some_inj] at hconc
  subst hconc
  subst hd'
  subst hreply
  constructor
  · exact ⟨_, List.getLast?_concat _, xformOuter_length_right ops _⟩
  · rw [List.length_map]
    exact xformOuter_length_left ops _

theorem c9_diamond_lengths_witness :
    ((xform_multiple [Operation.insert ⟨0, 0⟩ 'x' "A"]
        [Operation.insert ⟨0, 1⟩ 'y' "B", Operation.delete ⟨0, 0⟩ "B"]).1.length = 2 ∧
      (xform_multiple [Operation.insert ⟨0, 0⟩ 'x' "A"]
        [Operation.insert ⟨0, 1⟩ 'y' "B", Operation.delete ⟨0, 0⟩ "B"]).2.length = 1) ∧
    ((∃ r, (⟨[⟨[Operation.insert ⟨0, 0⟩ 'x' "A"], "A", 0⟩], [("A", 0)],
        [['x']]⟩ : Document).revisions.getLast? = some r ∧
      r.changes.length = ([Operation.insert ⟨0, 0⟩ 'x' "A"] : List Operation).length) ∧
      ([] : List PyVal).length = ([] : List Operation).length) :=
  ⟨(c9_diamond_lengths [Operation.insert ⟨0, 0⟩ 'x' "A"]
      [Operation.insert ⟨0, 1⟩ 'y' "B", Operation.delete ⟨0, 0⟩ "B"]
      (Document.initial.join "A") [Operation.insert ⟨0, 0⟩ 'x' "A"] "A"
      ⟨[⟨[Operation.insert ⟨0, 0⟩ 'x' "A"], "A", 0⟩], [("A", 0)], [['x']]⟩ [] (-1) []).1,
    (c9_diamond_lengths [Operation.insert ⟨0, 0⟩ 'x' "A"]
      [Operation.insert ⟨0, 1⟩ 'y' "B", Operation.delete ⟨0, 0⟩ "B"]
      (Document.initial.join "A") [Operation.insert ⟨0, 0⟩ 'x' "A"] "A"
      ⟨[⟨[Operation.insert ⟨0, 0⟩ 'x' "A"], "A", 0⟩], [("A", 0)], [['x']]⟩ [] (-1) []).2
      (by decide) (by decide) (by decide) (by rfl)⟩

/-- C10: transforms change only the position.  For non-identity operands,
`xform` preserves the kind, the author and (for inserts) the character of
its first operand, differing from it at most in position — except the
delete-versus-delete same-position case, which returns an identity
operation carrying the first operand's author. -/
theorem c10_transform_only_position :
    ∀ op1 op2 : Operation,
      (∀ a, op1 ≠ .identity a) → (∀ a, op2 ≠ .identity a) →
      (∃ p c a q, op1 = .insert p c a ∧ xform op1 op2 = .insert q c a) ∨
      (∃ p a, op1 = .delete p a ∧
        ((∃ q, xform op1 op2 = .delete q a) ∨
          (∃ p2 a2, op2 = .delete p2 a2 ∧ is_op_same_pos p p2 ∧
            xform op1 op2 = .identity a))) := by
  intro op1 op2 h1 h2
  cases op1 with
  | identity a => exact absurd rfl (h1 a)
  | insert p c a =>
    left
    cases op2 with
    | identity a2 => exact absurd rfl (h2 a2)
    | insert p2 c2 a2 =>
      obtain ⟨q, hq⟩ := t_ii_shape p p2 c c2 a a2
      exact ⟨p, c, a, q, rfl, hq⟩
    | delete p2 a2 =>
      obtain ⟨q, hq⟩ := t_id_shape p p2 c a
      exact ⟨p, c, a, q, rfl, hq⟩
  | delete p a =>
    right
    cases op2 with
    | identity a2 => exact absurd rfl (h2 a2)
    | insert p2 c2 a2 =>
      obtain ⟨q, hq⟩ := t_di_shape p p2 a c2
      exact ⟨p, a, rfl, Or.inl ⟨q, hq⟩⟩
    | delete p2 a2 =>
      rcases t_dd_shape p p2 a a2 with ⟨q, hq⟩ | ⟨hs, hq⟩
      · exact ⟨p, a, rfl, Or.inl ⟨q, hq⟩⟩
      · exact ⟨p, a, rfl, Or.inr ⟨p2, a2, rfl, hs, hq⟩⟩

/-! ## Commutation of row edits -/

lemma eraseIdx_eraseIdx_of_le {α : Type} (l : List α) (i j : Nat)
    (hij : i ≤ j) (hj : j + 1 < l.length) :
    (l.eraseIdx (j + 1)).eraseIdx i = (l.eraseIdx i).eraseIdx j := by
  induction l generalizing i j with
  | nil => rfl
  | cons x xs ih =>
    cases i with
    | zero => simp [List.eraseIdx_cons_succ, List.eraseIdx_cons_zero]
    | succ i' =>
      cases j with
      | zero => omega
      | succ j' =>
        simp only [List.eraseIdx_cons_succ, List.cons.injEq, true_and]
        exact ih i' j' (by omega) (by simp only [List.length_cons] at hj; omega)

lemma before_mk_iff (u v w z : Int) :
    is_op_before ⟨u, v⟩ ⟨w, z⟩ ↔ (u < w ∨ v < z) := by
  simp [is_op_before]

lemma same_mk_iff (u v w z : Int) :
    is_op_same_pos ⟨u, v⟩ ⟨w, z⟩ ↔ (u = w ∧ v = z) := Iff.rfl

/-! ## Pairwise convergence of row-local operations -/

/-- Convergence for two concurrent row-local inserts. -/
lemma conv_ii (t : TextBuf) (ρ1 γ1 ρ2 γ2 : Int) (c1 c2 : Char) (a1 a2 : String)
    (hr1a : 0 ≤ ρ1) (hr1b : ρ1 < (t.length : Int))
    (hc1a : 0 ≤ γ1) (hc1b : γ1 ≤ ((rowAt t ρ1).length : Int))
    (hr2a : 0 ≤ ρ2) (hr2b : ρ2 < (t.length : Int))
    (hc2a : 0 ≤ γ2) (hc2b : γ2 ≤ ((rowAt t ρ2).length : Int))
    (hn1 : c1 ≠ '\n') (hn2 : c2 ≠ '\n') (hA : a1 ≠ a2) :
    applyRL (applyRL t (.insert ⟨ρ1, γ1⟩ c1 a1))
        (xform (.insert ⟨ρ2, γ2⟩ c2 a2) (.insert ⟨ρ1, γ1⟩ c1 a1)) =
      applyRL (applyRL t (.insert ⟨ρ2, γ2⟩ c2 a2))
        (xform (.insert ⟨ρ1, γ1⟩ c1 a1) (.insert ⟨ρ2, γ2⟩ c2 a2)) := by
  rw [xform_ins_ins, xform_ins_ins]
  by_cases hrow : ρ1 = ρ2
  · subst hrow
    rcases lt_trichotomy γ1 γ2 with hlt | heq | hgt
    · have hno : ¬ (is_op_before ⟨ρ1, γ2⟩ ⟨ρ1, γ1⟩ ∨
          (is_op_same_pos ⟨ρ1, γ2⟩ ⟨ρ1, γ1⟩ ∧ a2 < a1)) := by
        rintro (hb | ⟨hs, -⟩)
        · rcases (before_mk_iff ρ1 γ2 ρ1 γ1).mp hb with h | h <;> omega
        · have := ((same_mk_iff ρ1 γ2 ρ1 γ1).mp hs).2; omega
      rw [t_ii_shift c2 hno hn1 rfl,
        t_ii_keep c1 c2 (Or.inl ((before_mk_iff ρ1 γ1 ρ1 γ2).mpr (Or.inr hlt)))]
      simp only [applyRL]
      rw [rowAt_set_self _ hr1a hr1b, rowAt_set_self _ hr1a hr1b,
        List.set_set, List.set_set]
      congr 1
      rw [show (γ2 + 1).toNat = γ2.toNat + 1 from by omega]
      exact List.insertIdx_comm c1 c2 γ1.toNat γ2.toNat (rowAt t ρ1)
        (by omega) (by omega)
    · subst heq
      rcases lt_trichotomy a1 a2 with ha | ha | ha
      · have hno : ¬ (is_op_before ⟨ρ1, γ1⟩ ⟨ρ1, γ1⟩ ∨
            (is_op_same_pos ⟨ρ1, γ1⟩ ⟨ρ1, γ1⟩ ∧ a2 < a1)) := by
          rintro (hb | ⟨-, hs⟩)
          · rcases (before_mk_iff ρ1 γ1 ρ1 γ1).mp hb with h | h <;> omega
          · exact absurd hs (lt_asymm ha)
        rw [t_ii_shift c2 hno hn1 rfl,
          t_ii_keep c1 c2 (Or.inr ⟨⟨rfl, rfl⟩, ha⟩)]
        simp only [applyRL]
        rw [rowAt_set_self _ hr1a hr1b, rowAt_set_self _ hr1a hr1b,
          List.set_set, List.set_set]
        congr 1
        rw [show (γ1 + 1).toNat = γ1.toNat + 1 from by omega]
        exact List.insertIdx_comm c1 c2 γ1.toNat γ1.toNat (rowAt t ρ1)
          (le_refl _) (by omega)
      · exact absurd ha hA
      · have hno : ¬ (is_op_before ⟨ρ1, γ1⟩ ⟨ρ1, γ1⟩ ∨
            (is_op_same_pos ⟨ρ1, γ1⟩ ⟨ρ1, γ1⟩ ∧ a1 < a2)) := by
          rintro (hb | ⟨-, hs⟩)
          · rcases (before_mk_iff ρ1 γ1 ρ1 γ1).mp hb with h | h <;> omega
          · exact absurd hs (lt_asymm ha)
        rw [t_ii_keep c2 c1 (Or.inr ⟨⟨rfl, rfl⟩, ha⟩),
          t_ii_shift c1 hno hn2 rfl]
        simp only [applyRL]
        rw [rowAt_set_self _ hr1a hr1b, rowAt_set_self _ hr1a hr1b,
          List.set_set, List.set_set]
        congr 1
        rw [show (γ1 + 1).toNat = γ1.toNat + 1 from by omega]
        exact (List.insertIdx_comm c2 c1 γ1.toNat γ1.toNat (rowAt t ρ1)
          (le_refl _) (by omega)).symm
    · have hno : ¬ (is_op_before ⟨ρ1, γ1⟩ ⟨ρ1, γ2⟩ ∨
          (is_op_same_pos ⟨ρ1, γ1⟩ ⟨ρ1, γ2⟩ ∧ a1 < a2)) := by
        rintro (hb | ⟨hs, -⟩)
        · rcases (before_mk_iff ρ1 γ1 ρ1 γ2).mp hb with h | h <;> omega
        · have := ((same_mk_iff ρ1 γ1 ρ1 γ2).mp hs).2; omega
      rw [t_ii_keep c2 c1 (Or.inl ((before_mk_iff ρ1 γ2 ρ1 γ1).mpr (Or.inr hgt))),
        t_ii_shift c1 hno hn2 rfl]
      simp only [applyRL]
      rw [rowAt_set_self _ hr1a hr1b, rowAt_set_self _ hr1a hr1b,
        List.set_set, List.set_set]
      congr 1
      rw [show (γ1 + 1).toNat = γ1.toNat + 1 from by omega]
      exact (List.insertIdx_comm c2 c1 γ2.toNat γ1.toNat (rowAt t ρ1)
        (by omega) (by omega)).symm
  · rw [t_ii_diff_row c2 a2 a1 hn1 (fun h => hrow (show ρ1 = ρ2 from h)),
      t_ii_diff_row c1 a1 a2 hn2 (fun h => hrow (show ρ1 = ρ2 from h.symm))]
    simp only [applyRL]
    rw [rowAt_set_ne _ (show ρ1.toNat ≠ ρ2.toNat from by omega),
      rowAt_set_ne _ (show ρ2.toNat ≠ ρ1.toNat from by omega),
      List.set_comm _ _ _ (show ρ1.toNat ≠ ρ2.toNat from by omega)]

/-- Convergence for a row-local insert concurrent with a row-local
delete (stated with the insert as the left operation). -/
lemma conv_id (t : TextBuf) (ρ1 γ1 ρ2 γ2 : Int) (c1 : Char) (a1 a2 : String)
    (hr1a : 0 ≤ ρ1) (hr1b : ρ1 < (t.length : Int))
    (hc1a : 0 ≤ γ1) (hc1b : γ1 ≤ ((rowAt t ρ1).length : Int))
    (hr2a : 0 ≤ ρ2) (hr2b : ρ2 < (t.length : Int))
    (hc2a : 0 ≤ γ2) (hc2b : γ2 < ((rowAt t ρ2).length : Int))
    (hn1 : c1 ≠ '\n') (hb2 : γ2 ≠ -1) :
    applyRL (applyRL t (.insert ⟨ρ1, γ1⟩ c1 a1))
        (xform (.delete ⟨ρ2, γ2⟩ a2) (.insert ⟨ρ1, γ1⟩ c1 a1)) =
      applyRL (applyRL t (.delete ⟨ρ2, γ2⟩ a2))
        (xform (.insert ⟨ρ1, γ1⟩ c1 a1) (.delete ⟨ρ2, γ2⟩ a2)) := by
  rw [xform_del_ins, xform_ins_del]
  by_cases hrow : ρ1 = ρ2
  · subst hrow
    by_cases hle : γ1 ≤ γ2
    · have hcond : is_op_before ⟨ρ1, γ1⟩ ⟨ρ1, γ2⟩ ∨
          is_op_same_pos ⟨ρ1, γ1⟩ ⟨ρ1, γ2⟩ := by
        rcases lt_or_eq_of_le hle with h | h
        · exact Or.inl ((before_mk_iff ρ1 γ1 ρ1 γ2).mpr (Or.inr h))
        · exact Or.inr ((same_mk_iff ρ1 γ1 ρ1 γ2).mpr ⟨rfl, h⟩)
      have hno : ¬ is_op_before ⟨ρ1, γ2⟩ ⟨ρ1, γ1⟩ := by
        intro hb
        rcases (before_mk_iff ρ1 γ2 ρ1 γ1).mp hb with h | h <;> omega
      rw [t_di_shift a2 hno hn1 rfl, t_id_keep c1 a1 hcond]
      simp only [applyRL]
      rw [rowAt_set_self _ hr1a hr1b, rowAt_set_self _ hr1a hr1b,
        List.set_set, List.set_set]
      congr 1
      rw [show (γ2 + 1).toNat = γ2.toNat + 1 from by omega]
      exact (List.insertIdx_eraseIdx_of_le γ2.toNat γ1.toNat (rowAt t ρ1)
        (by omega) (by omega)).symm
    · have hno : ¬ (is_op_before ⟨ρ1, γ1⟩ ⟨ρ1, γ2⟩ ∨
          is_op_same_pos ⟨ρ1, γ1⟩ ⟨ρ1, γ2⟩) := by
        rintro (hb | hs)
        · rcases (before_mk_iff ρ1 γ1 ρ1 γ2).mp hb with h | h <;> omega
        · have := ((same_mk_iff ρ1 γ1 ρ1 γ2).mp hs).2; omega
      rw [t_di_keep a2 c1 ((before_mk_iff ρ1 γ2 ρ1 γ1).mpr (Or.inr (by omega))),
        t_id_shift c1 a1 hno hb2 rfl]
      simp only [applyRL]
      rw [rowAt_set_self _ hr1a hr1b, rowAt_set_self _ hr1a hr1b,
        List.set_set, List.set_set]
      congr 1
      have e := @List.insertIdx_eraseIdx_of_ge Char c1 γ2.toNat (γ1.toNat - 1) (rowAt t ρ1)
        (by omega) (by omega)
      rw [show γ1.toNat - 1 + 1 = γ1.toNat from by omega] at e
      rw [show (γ1 - 1).toNat = γ1.toNat - 1 from by omega]
      exact e.symm
  · rw [t_di_diff_row a2 hn1 (fun h => hrow (show ρ1 = ρ2 from h)),
      t_id_diff_row c1 a1 (show (⟨ρ2, γ2⟩ : Position).column ≠ -1 from hb2)
        (fun h => hrow (show ρ1 = ρ2 from h.symm))]
    simp only [applyRL]
    rw [rowAt_set_ne _ (show ρ1.toNat ≠ ρ2.toNat from by omega),
      rowAt_set_ne _ (show ρ2.toNat ≠ ρ1.toNat from by omega),
      List.set_comm _ _ _ (show ρ1.toNat ≠ ρ2.toNat from by omega)]

/-- Convergence for two concurrent row-local deletes. -/
lemma conv_dd (t : TextBuf) (ρ1 γ1 ρ2 γ2 : Int) (a1 a2 : String)
    (hr1a : 0 ≤ ρ1) (hr1b : ρ1 < (t.length : Int))
    (hc1a : 0 ≤ γ1) (hc1b : γ1 < ((rowAt t ρ1).length : Int))
    (hr2a : 0 ≤ ρ2) (hr2b : ρ2 < (t.length : Int))
    (hc2a : 0 ≤ γ2) (hc2b : γ2 < ((rowAt t ρ2).length : Int))
    (hb1 : γ1 ≠ -1) (hb2 : γ2 ≠ -1) :
    applyRL (applyRL t (.delete ⟨ρ1, γ1⟩ a1))
        (xform (.delete ⟨ρ2, γ2⟩ a2) (.delete ⟨ρ1, γ1⟩ a1)) =
      applyRL (applyRL t (.delete ⟨ρ2, γ2⟩ a2))
        (xform (.delete ⟨ρ1, γ1⟩ a1) (.delete ⟨ρ2, γ2⟩ a2)) := by
  rw [xform_del_del, xform_del_del]
  by_cases hrow : ρ1 = ρ2
  · subst hrow
    rcases lt_trichotomy γ1 γ2 with hlt | heq | hgt
    · have hnob : ¬ is_op_before ⟨ρ1, γ2⟩ ⟨ρ1, γ1⟩ := by
        intro hb
        rcases (before_mk_iff ρ1 γ2 ρ1 γ1).mp hb with h | h <;> omega
      have hnos : ¬ is_op_same_pos ⟨ρ1, γ2⟩ ⟨ρ1, γ1⟩ := by
        intro hs
        have := ((same_mk_iff ρ1 γ2 ρ1 γ1).mp hs).2; omega
      rw [t_dd_shift a2 a1 hnob hnos
          (show (⟨ρ1, γ1⟩ : Position).column ≠ -1 from hb1) rfl,
        t_dd_keep a1 a2 ((before_mk_iff ρ1 γ1 ρ1 γ2).mpr (Or.inr hlt))]
      simp only [applyRL]
      rw [rowAt_set_self _ hr1a hr1b, rowAt_set_self _ hr1a hr1b,
        List.set_set, List.set_set]
      congr 1
      have e := eraseIdx_eraseIdx_of_le (rowAt t ρ1) γ1.toNat (γ2.toNat - 1)
        (by omega) (by omega)
      rw [show γ2.toNat - 1 + 1 = γ2.toNat from by omega] at e
      rw [show (γ2 - 1).toNat = γ2.toNat - 1 from by omega]
      exact e.symm
    · subst heq
      have hnob : ¬ is_op_before ⟨ρ1, γ1⟩ ⟨ρ1, γ1⟩ := by
        intro hb
        rcases (before_mk_iff ρ1 γ1 ρ1 γ1).mp hb with h | h <;> omega
      rw [t_dd_same a2 a1 hnob ⟨rfl, rfl⟩, t_dd_same a1 a2 hnob ⟨rfl, rfl⟩]
      rfl
    · have hnob : ¬ is_op_before ⟨ρ1, γ1⟩ ⟨ρ1, γ2⟩ := by
        intro hb
        rcases (before_mk_iff ρ1 γ1 ρ1 γ2).mp hb with h | h <;> omega
      have hnos : ¬ is_op_same_pos ⟨ρ1, γ1⟩ ⟨ρ1, γ2⟩ := by
        intro hs
        have := ((same_mk_iff ρ1 γ1 ρ1 γ2).mp hs).2; omega
      rw [t_dd_keep a2 a1 ((before_mk_iff ρ1 γ2 ρ1 γ1).mpr (Or.inr hgt)),
        t_dd_shift a1 a2 hnob hnos
          (show (⟨ρ1, γ2⟩ : Position).column ≠ -1 from hb2) rfl]
      simp only [applyRL]
      rw [rowAt_set_self _ hr1a hr1b, rowAt_set_self _ hr1a hr1b,
        List.set_set, List.set_set]
      congr 1
      have e := eraseIdx_eraseIdx_of_le (rowAt t ρ1) γ2.toNat (γ1.toNat - 1)
        (by omega) (by omega)
      rw [show γ1.toNat - 1 + 1 = γ1.toNat from by omega] at e
      rw [show (γ1 - 1).toNat = γ1.toNat - 1 from by omega]
      exact e
  · rw [t_dd_diff_row a2 a1 (show (⟨ρ1, γ1⟩ : Position).column ≠ -1 from hb1)
        (fun h => hrow (show ρ1 = ρ2 from h)),
      t_dd_diff_row a1 a2 (show (⟨ρ2, γ2⟩ : Position).column ≠ -1 from hb2)
        (fun h => hrow (show ρ1 = ρ2 from h.symm))]
    simp only [applyRL]
    rw [rowAt_set_ne _ (show ρ1.toNat ≠ ρ2.toNat from by omega),
      rowAt_set_ne _ (show ρ2.toNat ≠ ρ1.toNat from by omega),
      List.set_comm _ _ _ (show ρ1.toNat ≠ ρ2.toNat from by omega)]

/-- Pairwise convergence (TP1) of two valid row-local operations with
distinct authors, over the total application function. -/
lemma conv_core (t : TextBuf) (a b : Operation)
    (hva : Valid t a) (hvb : Valid t b) (hra : RowLocal a) (hrb : RowLocal b)
    (hA : a.author ≠ b.author) :
    applyRL (applyRL t a) (xform b a) = applyRL (applyRL t b) (xform a b) := by
  cases a with
  | identity u => cases b <;> rfl
  | insert p1 c1 a1 =>
    obtain ⟨ρ1, γ1⟩ := p1
    cases b with
    | identity u => rfl
    | insert p2 c2 a2 =>
      obtain ⟨ρ2, γ2⟩ := p2
      exact conv_ii t ρ1 γ1 ρ2 γ2 c1 c2 a1 a2 hva.1 hva.2.1 hva.2.2.1 hva.2.2.2
        hvb.1 hvb.2.1 hvb.2.2.1 hvb.2.2.2 hra hrb hA
    | delete p2 a2 =>
      obtain ⟨ρ2, γ2⟩ := p2
      have hb2 : γ2 ≠ -1 := hrb
      rcases hvb with ⟨hcol, -⟩ | ⟨hq2a, hq2b, hq2c, hq2d⟩
      · exact absurd hcol hb2
      · exact conv_id t ρ1 γ1 ρ2 γ2 c1 a1 a2 hva.1 hva.2.1 hva.2.2.1 hva.2.2.2
          hq2b hq2c hq2a hq2d hra hb2
  | delete p1 a1 =>
    obtain ⟨ρ1, γ1⟩ := p1
    cases b with
    | identity u => rfl
    | insert p2 c2 a2 =>
      obtain ⟨ρ2, γ2⟩ := p2
      have hb1 : γ1 ≠ -1 := hra
      rcases hva with ⟨hcol, -⟩ | ⟨hq1a, hq1b, hq1c, hq1d⟩
      · exact absurd hcol hb1
      · exact (conv_id t ρ2 γ2 ρ1 γ1 c2 a2 a1 hvb.1 hvb.2.1 hvb.2.2.1 hvb.2.2.2
          hq1b hq1c hq1a hq1d hrb hb1).symm
    | delete p2 a2 =>
      obtain ⟨ρ2, γ2⟩ := p2
      have hb1 : γ1 ≠ -1 := hra
      have hb2 : γ2 ≠ -1 := hrb
      rcases hva with ⟨hcol, -⟩ | ⟨hq1a, hq1b, hq1c, hq1d⟩
      · exact absurd hcol hb1
      rcases hvb with ⟨hcol, -⟩ | ⟨hq2a, hq2b, hq2c, hq2d⟩
      · exact absurd hcol hb2
      exact conv_dd t ρ1 γ1 ρ2 γ2 a1 a2 hq1b hq1c hq1a hq1d
        hq2b hq2c hq2a hq2d hb1 hb2

/-! ## Transport of validity through `xform` -/

lemma valid_insert_mk (t : TextBuf) (r c : Int) (ch : Char) (au : String)
    (h1 : 0 ≤ r) (h2 : r < (t.length : Int)) (h3 : 0 ≤ c)
    (h4 : c ≤ ((rowAt t r).length : Int)) :
    Valid t (.insert ⟨r, c⟩ ch au) := ⟨h1, h2, h3, h4⟩

lemma valid_delete_mk (t : TextBuf) (r c : Int) (au : String)
    (h1 : 0 ≤ r) (h2 : r < (t.length : Int)) (h3 : 0 ≤ c)
    (h4 : c < ((rowAt t r).length : Int)) :
    Valid t (.delete ⟨r, c⟩ au) := Or.inr ⟨h3, h1, h2, h4⟩

lemma transport_ii (t : TextBuf) (ρ1 γ1 ρ2 γ2 : Int) (c1 c2 : Char) (a1 a2 : String)
    (hr1a : 0 ≤ ρ1) (hr1b : ρ1 < (t.length : Int))
    (hc1a : 0 ≤ γ1) (hc1b : γ1 ≤ ((rowAt t ρ1).length : Int))
    (hr2a : 0 ≤ ρ2) (hr2b : ρ2 < (t.length : Int))
    (hc2a : 0 ≤ γ2) (hc2b : γ2 ≤ ((rowAt t ρ2).length : Int))
    (hn1 : c1 ≠ '\n') (hn2 : c2 ≠ '\n') :
    Valid (applyRL t (.insert ⟨ρ2, γ2⟩ c2 a2))
        (xform (.insert ⟨ρ1, γ1⟩ c1 a1) (.insert ⟨ρ2, γ2⟩ c2 a2)) ∧
      RowLocal (xform (.insert ⟨ρ1, γ1⟩ c1 a1) (.insert ⟨ρ2, γ2⟩ c2 a2)) := by
  rw [xform_ins_ins]
  have hlen : (applyRL t (.insert ⟨ρ2, γ2⟩ c2 a2)).length = t.length := by
    simp [applyRL]
  by_cases hrow : ρ1 = ρ2
  · subst hrow
    have hrAt : rowAt (applyRL t (.insert ⟨ρ1, γ2⟩ c2 a2)) ρ1 =
        (rowAt t ρ1).insertIdx γ2.toNat c2 := by
      simp only [applyRL]
      exact rowAt_set_self _ hr1a hr1b
    have hrLen : (rowAt (applyRL t (.insert ⟨ρ1, γ2⟩ c2 a2)) ρ1).length =
        (rowAt t ρ1).length + 1 := by
      rw [hrAt, List.length_insertIdx _ _ (by omega)]
    by_cases hcond : is_op_before ⟨ρ1, γ1⟩ ⟨ρ1, γ2⟩ ∨
        (is_op_same_pos ⟨ρ1, γ1⟩ ⟨ρ1, γ2⟩ ∧ a1 < a2)
    · rw [t_ii_keep c1 c2 hcond]
      exact ⟨valid_insert_mk _ ρ1 γ1 c1 a1 hr1a (by omega) hc1a (by omega), hn1⟩
    · rw [t_ii_shift c1 hcond hn2 rfl]
      exact ⟨valid_insert_mk _ ρ1 (γ1 + 1) c1 a1 hr1a (by omega) (by omega)
        (by omega), hn1⟩
  · rw [t_ii_diff_row c1 a1 a2 hn2 (fun h => hrow (show ρ1 = ρ2 from h.symm))]
    have hrAt : rowAt (applyRL t (.insert ⟨ρ2, γ2⟩ c2 a2)) ρ1 = rowAt t ρ1 := by
      simp only [applyRL]
      exact rowAt_set_ne _ (show ρ2.toNat ≠ ρ1.toNat from by omega)
    have hrLen := congrArg List.length hrAt
    exact ⟨valid_insert_mk _ ρ1 γ1 c1 a1 hr1a (by omega) hc1a (by omega), hn1⟩

lemma transport_id (t : TextBuf) (ρ1 γ1 ρ2 γ2 : Int) (c1 : Char) (a1 a2 : String)
    (hr1a : 0 ≤ ρ1) (hr1b : ρ1 < (t.length : Int))
    (hc1a : 0 ≤ γ1) (hc1b : γ1 ≤ ((rowAt t ρ1).length : Int))
    (hr2a : 0 ≤ ρ2) (hr2b : ρ2 < (t.length : Int))
    (hc2a : 0 ≤ γ2) (hc2b : γ2 < ((rowAt t ρ2).length : Int))
    (hn1 : c1 ≠ '\n') (hb2 : γ2 ≠ -1) :
    Valid (applyRL t (.delete ⟨ρ2, γ2⟩ a2))
        (xform (.insert ⟨ρ1, γ1⟩ c1 a1) (.delete ⟨ρ2, γ2⟩ a2)) ∧
      RowLocal (xform (.insert ⟨ρ1, γ1⟩ c1 a1) (.delete ⟨ρ2, γ2⟩ a2)) := by
  rw [xform_ins_del]
  have hlen : (applyRL t (.delete ⟨ρ2, γ2⟩ a2)).length = t.length := by
    simp [applyRL]
  by_cases hrow : ρ1 = ρ2
  · subst hrow
    have hrAt : rowAt (applyRL t (.delete ⟨ρ1, γ2⟩ a2)) ρ1 =
        (rowAt t ρ1).eraseIdx γ2.toNat := by
      simp only [applyRL]
      exact rowAt_set_self _ hr1a hr1b
    have hrLen : (rowAt (applyRL t (.delete ⟨ρ1, γ2⟩ a2)) ρ1).length =
        (rowAt t ρ1).length - 1 := by
      rw [hrAt, List.length_eraseIdx_of_lt (by omega)]
    by_cases hcond : is_op_before ⟨ρ1, γ1⟩ ⟨ρ1, γ2⟩ ∨
        is_op_same_pos ⟨ρ1, γ1⟩ ⟨ρ1, γ2⟩
    · have hle : γ1 ≤ γ2 := by
        rcases hcond with hb | hs
        · rcases (before_mk_iff ρ1 γ1 ρ1 γ2).mp hb with h | h <;> omega
        · have := ((same_mk_iff ρ1 γ1 ρ1 γ2).mp hs).2; omega
      rw [t_id_keep c1 a1 hcond]
      exact ⟨valid_insert_mk _ ρ1 γ1 c1 a1 hr1a (by omega) hc1a (by omega), hn1⟩
    · have hgt : γ2 < γ1 := by
        by_contra h
        apply hcond
        rcases lt_or_eq_of_le (not_lt.mp h) with h' | h'
        · exact Or.inl ((before_mk_iff ρ1 γ1 ρ1 γ2).mpr (Or.inr h'))
        · exact Or.inr ((same_mk_iff ρ1 γ1 ρ1 γ2).mpr ⟨rfl, h'⟩)
      rw [t_id_shift c1 a1 hcond hb2 rfl]
      exact ⟨valid_insert_mk _ ρ1 (γ1 - 1) c1 a1 hr1a (by omega) (by omega)
        (by omega), hn1⟩
  · rw [t_id_diff_row c1 a1 (show (⟨ρ2, γ2⟩ : Position).column ≠ -1 from hb2)
      (fun h => hrow (show ρ1 = ρ2 from h.symm))]
    have hrAt : rowAt (applyRL t (.delete ⟨ρ2, γ2⟩ a2)) ρ1 = rowAt t ρ1 := by
      simp only [applyRL]
      exact rowAt_set_ne _ (show ρ2.toNat ≠ ρ1.toNat from by omega)
    have hrLen := congrArg List.length hrAt
    exact ⟨valid_insert_mk _ ρ1 γ1 c1 a1 hr1a (by omega) hc1a (by omega), hn1⟩

lemma transport_di (t : TextBuf) (ρ1 γ1 ρ2 γ2 : Int) (c2 : Char) (a1 a2 : String)
    (hr1a : 0 ≤ ρ1) (hr1b : ρ1 < (t.length : Int))
    (hc1a : 0 ≤ γ1) (hc1b : γ1 < ((rowAt t ρ1).length : Int))
    (hr2a : 0 ≤ ρ2) (hr2b : ρ2 < (t.length : Int))
    (hc2a : 0 ≤ γ2) (hc2b : γ2 ≤ ((rowAt t ρ2).length : Int))
    (hb1 : γ1 ≠ -1) (hn2 : c2 ≠ '\n') :
    Valid (applyRL t (.insert ⟨ρ2, γ2⟩ c2 a2))
        (xform (.delete ⟨ρ1, γ1⟩ a1) (.insert ⟨ρ2, γ2⟩ c2 a2)) ∧
      RowLocal (xform (.delete ⟨ρ1, γ1⟩ a1) (.insert ⟨ρ2, γ2⟩ c2 a2)) := by
  rw [xform_del_ins]
  have hlen : (applyRL t (.insert ⟨ρ2, γ2⟩ c2 a2)).length = t.length := by
    simp [applyRL]
  by_cases hrow : ρ1 = ρ2
  · subst hrow
    have hrAt : rowAt (applyRL t (.insert ⟨ρ1, γ2⟩ c2 a2)) ρ1 =
        (rowAt t ρ1).insertIdx γ2.toNat c2 := by
      simp only [applyRL]
      exact rowAt_set_self _ hr1a hr1b
    have hrLen : (rowAt (applyRL t (.insert ⟨ρ1, γ2⟩ c2 a2)) ρ1).length =
        (rowAt t ρ1).length + 1 := by
      rw [hrAt, List.length_insertIdx _ _ (by omega)]
    by_cases hcond : is_op_before ⟨ρ1, γ1⟩ ⟨ρ1, γ2⟩
    · rw [t_di_keep a1 c2 hcond]
      exact ⟨valid_delete_mk _ ρ1 γ1 a1 hr1a (by omega) hc1a (by omega),
        show γ1 ≠ -1 from hb1⟩
    · rw [t_di_shift a1 hcond hn2 rfl]
      exact ⟨valid_delete_mk _ ρ1 (γ1 + 1) a1 hr1a (by omega) (by omega)
        (by omega), show γ1 + 1 ≠ -1 from by omega⟩
  · rw [t_di_diff_row a1 hn2 (fun h => hrow (show ρ1 = ρ2 from h.symm))]
    have hrAt : rowAt (applyRL t (.insert ⟨ρ2, γ2⟩ c2 a2)) ρ1 = rowAt t ρ1 := by
      simp only [applyRL]
      exact rowAt_set_ne _ (show ρ2.toNat ≠ ρ1.toNat from by omega)
    have hrLen := congrArg List.length hrAt
    exact ⟨valid_delete_mk _ ρ1 γ1 a1 hr1a (by omega) hc1a (by omega),
      show γ1 ≠ -1 from hb1⟩

lemma transport_dd (t : TextBuf) (ρ1 γ1 ρ2 γ2 : Int) (a1 a2 : String)
    (hr1a : 0 ≤ ρ1) (hr1b : ρ1 < (t.length : Int))
    (hc1a : 0 ≤ γ1) (hc1b : γ1 < ((rowAt t ρ1).length : Int))
    (hr2a : 0 ≤ ρ2) (hr2b : ρ2 < (t.length : Int))
    (hc2a : 0 ≤ γ2) (hc2b : γ2 < ((rowAt t ρ2).length : Int))
    (hb1 : γ1 ≠ -1) (hb2 : γ2 ≠ -1) :
    Valid (applyRL t (.delete ⟨ρ2, γ2⟩ a2))
        (xform (.delete ⟨ρ1, γ1⟩ a1) (.delete ⟨ρ2, γ2⟩ a2)) ∧
      RowLocal (xform (.delete ⟨ρ1, γ1⟩ a1) (.delete ⟨ρ2, γ2⟩ a2)) := by
  rw [xform_del_del]
  have hlen : (applyRL t (.delete ⟨ρ2, γ2⟩ a2)).length = t.length := by
    simp [applyRL]
  by_cases hrow : ρ1 = ρ2
  · subst hrow
    have hrAt : rowAt (applyRL t (.delete ⟨ρ1, γ2⟩ a2)) ρ1 =
        (rowAt t ρ1).eraseIdx γ2.toNat := by
      simp only [applyRL]
      exact rowAt_set_self _ hr1a hr1b
    have hrLen : (rowAt (applyRL t (.delete ⟨ρ1, γ2⟩ a2)) ρ1).length =
        (rowAt t ρ1).length - 1 := by
      rw [hrAt, List.length_eraseIdx_of_lt (by omega)]
    rcases lt_trichotomy γ1 γ2 with hlt | heq | hgt
    · rw [t_dd_keep a1 a2 ((before_mk_iff ρ1 γ1 ρ1 γ2).mpr (Or.inr hlt))]
      exact ⟨valid_delete_mk _ ρ1 γ1 a1 hr1a (by omega) hc1a (by omega),
        show γ1 ≠ -1 from hb1⟩
    · subst heq
      have hnob : ¬ is_op_before ⟨ρ1, γ1⟩ ⟨ρ1, γ1⟩ := by
        intro hb
        rcases (before_mk_iff ρ1 γ1 ρ1 γ1).mp hb with h | h <;> omega
      rw [t_dd_same a1 a2 hnob ⟨rfl, rfl⟩]
      exact ⟨trivial, trivial⟩
    · have hnob : ¬ is_op_before ⟨ρ1, γ1⟩ ⟨ρ1, γ2⟩ := by
        intro hb
        rcases (before_mk_iff ρ1 γ1 ρ1 γ2).mp hb with h | h <;> omega
      have hnos : ¬ is_op_same_pos ⟨ρ1, γ1⟩ ⟨ρ1, γ2⟩ := by
        intro hs
        have := ((same_mk_iff ρ1 γ1 ρ1 γ2).mp hs).2; omega
      rw [t_dd_shift a1 a2 hnob hnos
        (show (⟨ρ1, γ2⟩ : Position).column ≠ -1 from hb2) rfl]
      exact ⟨valid_delete_mk _ ρ1 (γ1 - 1) a1 hr1a (by omega) (by omega)
        (by omega), show γ1 - 1 ≠ -1 from by omega⟩
  · rw [t_dd_diff_row a1 a2 (show (⟨ρ2, γ2⟩ : Position).column ≠ -1 from hb2)
      (fun h => hrow (show ρ1 = ρ2 from h.symm))]
    have hrAt : rowAt (applyRL t (.delete ⟨ρ2, γ2⟩ a2)) ρ1 = rowAt t ρ1 := by
      simp only [applyRL]
      exact rowAt_set_ne _ (show ρ2.toNat ≠ ρ1.toNat from by omega)
    have hrLen := congrArg List.length hrAt
    exact ⟨valid_delete_mk _ ρ1 γ1 a1 hr1a (by omega) hc1a (by omega),
      show γ1 ≠ -1 from hb1⟩

/-- The transform of a valid row-local operation against another valid
row-local operation executed first is valid and row-local against the
buffer with that other operation applied. -/
lemma xform_transport (t : TextBuf) (a b : Operation)
    (hva : Valid t a) (hvb : Valid t b) (hra : RowLocal a) (hrb : RowLocal b) :
    Valid (applyRL t b) (xform a b) ∧ RowLocal (xform a b) := by
  cases a with
  | identity u => cases b <;> exact ⟨trivial, trivial⟩
  | insert p1 c1 a1 =>
    obtain ⟨ρ1, γ1⟩ := p1
    cases b with
    | identity u => exact ⟨hva, hra⟩
    | insert p2 c2 a2 =>
      obtain ⟨ρ2, γ2⟩ := p2
      exact transport_ii t ρ1 γ1 ρ2 γ2 c1 c2 a1 a2 hva.1 hva.2.1 hva.2.2.1
        hva.2.2.2 hvb.1 hvb.2.1 hvb.2.2.1 hvb.2.2.2 hra hrb
    | delete p2 a2 =>
      obtain ⟨ρ2, γ2⟩ := p2
      have hb2 : γ2 ≠ -1 := hrb
      rcases hvb with ⟨hcol, -⟩ | ⟨hq2a, hq2b, hq2c, hq2d⟩
      · exact absurd hcol hb2
      · exact transport_id t ρ1 γ1 ρ2 γ2 c1 a1 a2 hva.1 hva.2.1 hva.2.2.1
          hva.2.2.2 hq2b hq2c hq2a hq2d hra hb2
  | delete p1 a1 =>
    obtain ⟨ρ1, γ1⟩ := p1
    have hb1 : γ1 ≠ -1 := hra
    rcases hva with ⟨hcol, -⟩ | ⟨hq1a, hq1b, hq1c, hq1d⟩
    · exact absurd hcol hb1
    cases b with
    | identity u => exact ⟨Or.inr ⟨hq1a, hq1b, hq1c, hq1d⟩, hra⟩
    | insert p2 c2 a2 =>
      obtain ⟨ρ2, γ2⟩ := p2
      exact transport_di t ρ1 γ1 ρ2 γ2 c2 a1 a2 hq1b hq1c hq1a hq1d
        hvb.1 hvb.2.1 hvb.2.2.1 hvb.2.2.2 hb1 hrb
    | delete p2 a2 =>
      obtain ⟨ρ2, γ2⟩ := p2
      have hb2 : γ2 ≠ -1 := hrb
      rcases hvb with ⟨hcol, -⟩ | ⟨hq2a, hq2b, hq2c, hq2d⟩
      · exact absurd hcol hb2
      · exact transport_dd t ρ1 γ1 ρ2 γ2 a1 a2 hq1b hq1c hq1a hq1d
          hq2b hq2c hq2a hq2d hb1 hb2

/-! ## The revision range of `get_changes_since_revision_num` -/

lemma intRange_nil {a b : Int} (h : b ≤ a) : intRange a b = [] := by
  unfold intRange
  have h1 : (b - a).toNat = 0 := by omega
  rw [h1]
  rfl

lemma intRange_cons {a b : Int} (h : a < b) :
    intRange a b = a :: intRange (a + 1) b := by
  unfold intRange
  have h1 : (b - a).toNat = (b - (a + 1)).toNat + 1 := by omega
  rw [h1, List.range_succ_eq_map, List.map_cons, List.map_map]
  congr 1
  · simp
  · apply List.map_congr_left
    intro k _
    simp only [Function.comp_apply]
    push_cast
    ring

lemma changes_fold (l : List Revision) :
    ∀ (n : Nat) (j : Nat) (acc : List Operation), l.length - j ≤ n →
      (intRange (j : Int) (l.length : Int)).foldlM
          (fun acc i => (pyGet l i).map fun rev => acc ++ rev.changes) acc
        = some (acc ++ (l.drop j).flatMap Revision.changes) := by
  intro n
  induction n with
  | zero =>
    intro j acc hj
    rw [intRange_nil (by omega), List.drop_eq_nil_of_le (by omega),
      List.flatMap_nil, List.append_nil]
    rfl
  | succ n ih =>
    intro j acc hj
    by_cases hlt : j < l.length
    · rw [intRange_cons (by exact_mod_cast hlt), List.foldlM_cons,
        pyGet_of_bounds (by omega) (by exact_mod_cast hlt), Int.toNat_ofNat,
        List.getElem?_eq_getElem hlt, Option.map_some']
      show (intRange ((j : Int) + 1) (l.length : Int)).foldlM _ _ = _
      have hcast : ((j : Int) + 1) = ((j + 1 : Nat) : Int) := by push_cast; ring
      rw [hcast, ih (j + 1) (acc ++ l[j].changes) (by omega),
        List.drop_eq_getElem_cons hlt, List.flatMap_cons, List.append_assoc]
    · rw [intRange_nil (by omega), List.drop_eq_nil_of_le (by omega),
        List.flatMap_nil, List.append_nil]
      rfl

/-- For a base revision number `≥ -1` (invariant I1), the collected
concurrent operations are exactly the changes of the revisions after the
base, in revision order then intra-revision order. -/
lemma get_changes_since_eq (d : Document) (base : Int) (h0 : -1 ≤ base) :
    d.get_changes_since_revision_num base =
      some ((d.revisions.drop (base + 1).toNat).flatMap Revision.changes) := by
  unfold Document.get_changes_since_revision_num Document.get_last_revision_num
  have hl : (d.revisions.length : Int) - 1 + 1 = (d.revisions.length : Int) := by ring
  have hb : base + 1 = (((base + 1).toNat : Nat) : Int) := by omega
  rw [hl, hb]
  have := changes_fold d.revisions d.revisions.length (base + 1).toNat [] (by omega)
  rw [List.nil_append] at this
  exact this

/-- Sequential application distributes over list append. -/
lemma Text.applyAll_append (t : TextBuf) (xs ys : List Operation) :
    Text.applyAll t (xs ++ ys) =
      (Text.applyAll t xs).bind fun u => Text.applyAll u ys := by
  unfold Text.applyAll
  rw [List.foldlM_append]
  rfl

/-- C4: an empty submission by a registered session whose acknowledged
revision satisfies invariant I1 advances that session's entry to the
last revision number, returns exactly the operations of the revisions
after the session's base (in revision order then intra-revision order),
serialized, and leaves the revision log and the text buffer unchanged. -/
theorem c4_empty_submission :
    ∀ (d : Document) (session_id : String) (base : Int),
      dictGet d.clients session_id = some base → -1 ≤ base →
      d.add_changes [] session_id =
        some (⟨d.revisions, dictSet d.clients session_id d.get_last_revision_num,
            d.text⟩,
          ((d.revisions.drop (base + 1).toNat).flatMap Revision.changes).map
            Operation.get_list_structure) := by
  intro d sid base hbase h0
  unfold Document.add_changes
  rw [hbase, Option.some_bind, get_changes_since_eq d base h0, Option.some_bind,
    if_pos (show ([] : List Operation).length = 0 from rfl)]

theorem c4_empty_submission_witness :
    (dictGet (⟨[⟨[Operation.insert ⟨0, 0⟩ 'a' "A"], "A", 0⟩,
          ⟨[Operation.insert ⟨0, 1⟩ 'b' "B"], "B", 1⟩], [("A", 0), ("B", 1)],
        [['a', 'b']]⟩ : Document).clients "A" = some 0 ∧
      (-1 : Int) ≤ 0) ∧
    (⟨[⟨[Operation.insert ⟨0, 0⟩ 'a' "A"], "A", 0⟩,
          ⟨[Operation.insert ⟨0, 1⟩ 'b' "B"], "B", 1⟩], [("A", 0), ("B", 1)],
        [['a', 'b']]⟩ : Document).add_changes [] "A" =
      some (⟨(⟨[⟨[Operation.insert ⟨0, 0⟩ 'a' "A"], "A", 0⟩,
              ⟨[Operation.insert ⟨0, 1⟩ 'b' "B"], "B", 1⟩], [("A", 0), ("B", 1)],
            [['a', 'b']]⟩ : Document).revisions,
          dictSet (⟨[⟨[Operation.insert ⟨0, 0⟩ 'a' "A"], "A", 0⟩,
              ⟨[Operation.insert ⟨0, 1⟩ 'b' "B"], "B", 1⟩], [("A", 0), ("B", 1)],
            [['a', 'b']]⟩ : Document).clients "A"
            (⟨[⟨[Operation.insert ⟨0, 0⟩ 'a' "A"], "A", 0⟩,
              ⟨[Operation.insert ⟨0, 1⟩ 'b' "B"], "B", 1⟩], [("A", 0), ("B", 1)],
            [['a', 'b']]⟩ : Document).get_last_revision_num,
          (⟨[⟨[Operation.insert ⟨0, 0⟩ 'a' "A"], "A", 0⟩,
              ⟨[Operation.insert ⟨0, 1⟩ 'b' "B"], "B", 1⟩], [("A", 0), ("B", 1)],
            [['a', 'b']]⟩ : Document).text⟩,
        (((⟨[⟨[Operation.insert ⟨0, 0⟩ 'a' "A"], "A", 0⟩,
              ⟨[Operation.insert ⟨0, 1⟩ 'b' "B"], "B", 1⟩], [("A", 0), ("B", 1)],
            [['a', 'b']]⟩ : Document).revisions.drop ((0 : Int) + 1).toNat).flatMap
              Revision.changes).map Operation.get_list_structure) :=
  ⟨⟨by decide, by decide⟩,
    c4_empty_submission
      ⟨[⟨[Operation.insert ⟨0, 0⟩ 'a' "A"], "A", 0⟩,
        ⟨[Operation.insert ⟨0, 1⟩ 'b' "B"], "B", 1⟩], [("A", 0), ("B", 1)],
        [['a', 'b']]⟩ "A" 0 (by decide) (by decide)⟩

/-- C5: every successful submission appends exactly one revision when the
submitted operation list is non-empty and none when it is empty, and the
previously stored revisions survive unchanged as a prefix of the new log. -/
theorem c5_submit_revision_frame :
    ∀ (d : Document) (ops : List Operation) (author : String)
      (d' : Document) (reply : List PyVal),
      d.add_changes ops author = some (d', reply) →
      d'.revisions.length =
        d.revisions.length + (if ops.length = 0 then 0 else 1) ∧
      d'.revisions.take d.revisions.length = d.revisions := by
  intro d ops author d' reply h
  by_cases hne : ops.length = 0
  · have hops : ops = [] := List.length_eq_zero.mp hne
    subst hops
    obtain ⟨base, concurrent, hbase, hconc, hd', hreply⟩ := add_changes_empty_inv h
    subst hd'
    rw [if_pos (show ([] : List Operation).length = 0 from rfl)]
    exact ⟨rfl, List.take_length d.revisions⟩
  · obtain ⟨base, concurrent, t2, hbase, hconc, ht2, hd', hreply⟩ :=
      add_changes_nonempty_inv hne h
    subst hd'
    rw [if_neg hne]
    constructor
    · simp
    · exact List.take_left d.revisions _

theorem c5_submit_revision_frame_witness :
    (⟨[⟨[Operation.insert ⟨0, 0⟩ 'x' "A"], "A", 0⟩], [("A", 0)],
        [['x']]⟩ : Document).revisions.length =
      (Document.initial.join "A").revisions.length +
        (if ([Operation.insert ⟨0, 0⟩ 'x' "A"] : List Operation).length = 0
          then 0 else 1) ∧
    (⟨[⟨[Operation.insert ⟨0, 0⟩ 'x' "A"], "A", 0⟩], [("A", 0)],
        [['x']]⟩ : Document).revisions.take
        (Document.initial.join "A").revisions.length =
      (Document.initial.join "A").revisions :=
  c5_submit_revision_frame (Document.initial.join "A")
    [Operation.insert ⟨0, 0⟩ 'x' "A"] "A"
    ⟨[⟨[Operation.insert ⟨0, 0⟩ 'x' "A"], "A", 0⟩], [("A", 0)], [['x']]⟩ []
    (by rfl)

/-- C6: revision log integrity.  For every document reachable by joins
and successful submissions, the materialized text buffer equals the
sequential application of the changes of every stored revision, in log
order, to the fresh buffer. -/
theorem c6_revision_log_integrity :
    ∀ d : Document, d.Reachable →
      Text.applyAll Text.initial (d.revisions.flatMap Revision.changes) =
        some d.text := by
  intro d hd
  induction hd with
  | initial => rfl
  | join d s _ ih => exact ih
  | submit d d' ops a reply _ hadd ih =>
    by_cases hne : ops.length = 0
    · have hops : ops = [] := List.length_eq_zero.mp hne
      subst hops
      obtain ⟨base, concurrent, hbase, hconc, hd', hreply⟩ :=
        add_changes_empty_inv hadd
      subst hd'
      exact ih
    · obtain ⟨base, concurrent, t2, hbase, hconc, ht2, hd', hreply⟩ :=
        add_changes_nonempty_inv hne hadd
      subst hd'
      rw [List.flatMap_append, Text.applyAll_append, ih, Option.some_bind]
      simpa using ht2

theorem c6_revision_log_integrity_witness :
    Text.applyAll Text.initial
        ((⟨[⟨[Operation.insert ⟨0, 0⟩ 'x' "A"], "A", 0⟩], [("A", 0)],
            [['x']]⟩ : Document).revisions.flatMap Revision.changes) =
      some (⟨[⟨[Operation.insert ⟨0, 0⟩ 'x' "A"], "A", 0⟩], [("A", 0)],
        [['x']]⟩ : Document).text :=
  c6_revision_log_integrity _
    (Document.Reachable.submit (Document.initial.join "A")
      ⟨[⟨[Operation.insert ⟨0, 0⟩ 'x' "A"], "A", 0⟩], [("A", 0)], [['x']]⟩
      [Operation.insert ⟨0, 0⟩ 'x' "A"] "A" []
      (Document.Reachable.join Document.initial "A" Document.Reachable.initial)
      (by rfl))

/-! ## The diamond over sequences -/

lemma applyAllRL_nil (t : TextBuf) : applyAllRL t [] = t := rfl

lemma applyAllRL_cons (t : TextBuf) (op : Operation) (ops : List Operation) :
    applyAllRL t (op :: ops) = applyAllRL (applyRL t op) ops := rfl

lemma xformInner_nil (a : Operation) : xformInner a [] = ([], a) := rfl

lemma xformInner_cons (a r : Operation) (rest : List Operation) :
    xformInner a (r :: rest) =
      (xform r a :: (xformInner (xform a r) rest).1,
        (xformInner (xform a r) rest).2) := rfl

lemma xformOuter_nil (R : List Operation) : xformOuter [] R = (R, []) := rfl

lemma xformOuter_cons (l : Operation) (ls R : List Operation) :
    xformOuter (l :: ls) R =
      ((xformOuter ls (xformInner l R).1).1,
        (xformInner l R).2 :: (xformOuter ls (xformInner l R).1).2) := rfl

/-- On sequentially valid row-local operations, `Text.applyAll` never
raises and agrees with the total fold `applyAllRL`. -/
lemma Text.applyAll_eq_applyAllRL {t : TextBuf} {ops : List Operation}
    (h : SeqValid t ops) :
    Text.applyAll t ops = some (applyAllRL t ops) := by
  induction ops generalizing t with
  | nil => rfl
  | cons op rest ih =>
    obtain ⟨hv, hr, hrest⟩ := h
    rw [Text.applyAll, List.foldlM_cons, Text.apply_eq_applyRL hv hr]
    show Text.applyAll (applyRL t op) rest = _
    rw [ih hrest, applyAllRL_cons]

/-- The inner loop of the diamond: transforming one left operation across
a sequentially valid list of rights preserves convergence, validity,
row-locality and authors. -/
lemma xformInner_spec :
    ∀ (R : List Operation) (t : TextBuf) (a : Operation),
      Valid t a → RowLocal a → SeqValid t R →
      (∀ r ∈ R, r.author ≠ a.author) →
      applyAllRL (applyRL t a) (xformInner a R).1 =
          applyRL (applyAllRL t R) (xformInner a R).2 ∧
        Valid (applyAllRL t R) (xformInner a R).2 ∧
        RowLocal (xformInner a R).2 ∧
        (xformInner a R).2.author = a.author ∧
        SeqValid (applyRL t a) (xformInner a R).1 ∧
        (xformInner a R).1.map Operation.author = R.map Operation.author := by
  intro R
  induction R with
  | nil =>
    intro t a hva hra _ _
    exact ⟨rfl, hva, hra, rfl, trivial, rfl⟩
  | cons r rest ih =>
    intro t a hva hra hSV hauth
    obtain ⟨hvr, hrr, hrest⟩ := hSV
    have hA : a.author ≠ r.author :=
      Ne.symm (hauth r (List.mem_cons_self r rest))
    have hra1 := xform_transport t r a hvr hva hrr hra
    have har1 := xform_transport t a r hva hvr hra hrr
    have hauthar : (xform a r).author = a.author := xform_author a r
    have hconv : applyRL (applyRL t a) (xform r a) =
        applyRL (applyRL t r) (xform a r) :=
      conv_core t a r hva hvr hra hrr hA
    obtain ⟨ih1, ih2, ih3, ih4, ih5, ih6⟩ :=
      ih (applyRL t r) (xform a r) har1.1 har1.2 hrest
        (fun r' hr' => by
          rw [hauthar]
          exact hauth r' (List.mem_cons_of_mem r hr'))
    rw [xformInner_cons]
    refine ⟨?_, ?_, ?_, ?_, ?_, ?_⟩
    · rw [applyAllRL_cons, hconv, applyAllRL_cons]
      exact ih1
    · exact ih2
    · exact ih3
    · rw [ih4, hauthar]
    · exact ⟨hra1.1, hra1.2, by rw [hconv]; exact ih5⟩
    · rw [List.map_cons, List.map_cons, xform_author, ih6]

/-- The outer loop of the diamond: the two catch-up sequences returned by
`xformOuter` lead both sides to the same buffer, and remain sequentially
valid from the respective sides. -/
lemma xformOuter_spec :
    ∀ (L R : List Operation) (t : TextBuf),
      SeqValid t L → SeqValid t R →
      (∀ l ∈ L, ∀ r ∈ R, l.author ≠ r.author) →
      applyAllRL (applyAllRL t L) (xformOuter L R).1 =
          applyAllRL (applyAllRL t R) (xformOuter L R).2 ∧
        SeqValid (applyAllRL t L) (xformOuter L R).1 ∧
        SeqValid (applyAllRL t R) (xformOuter L R).2 := by
  intro L
  induction L with
  | nil =>
    intro R t _ hR _
    exact ⟨rfl, hR, trivial⟩
  | cons l ls ih =>
    intro R t hL hR hdisj
    obtain ⟨hvl, hrl, hls⟩ := hL
    obtain ⟨hi1, hi2, hi3, hi4, hi5, hi6⟩ :=
      xformInner_spec R t l hvl hrl hR
        (fun r hr => Ne.symm (hdisj l (List.mem_cons_self l ls) r hr))
    obtain ⟨hih1, hih2, hih3⟩ :=
      ih (xformInner l R).1 (applyRL t l) hls hi5
        (fun l' hl' r' hr' => by
          have hmem : r'.author ∈ R.map Operation.author := by
            rw [← hi6]
            exact List.mem_map_of_mem _ hr'
          obtain ⟨r0, hr0, hr0a⟩ := List.mem_map.mp hmem
          rw [← hr0a]
          exact hdisj l' (List.mem_cons_of_mem l hl') r0 hr0)
    rw [xformOuter_cons]
    refine ⟨?_, ?_, ?_⟩
    · rw [applyAllRL_cons, hih1, applyAllRL_cons, ← hi1]
    · rw [applyAllRL_cons]
      exact hih2
    · exact ⟨hi2, hi3, by rw [← hi1]; exact hih3⟩

/-- C2 (counterexample): the claim's pairing of the two returned
sequences is the wrong way round even for plain same-row operations
(left), and with the pairing corrected, sequences containing a newline
insert still diverge because of the row-handling of the transforms
(right). -/
theorem c2_sequence_counterexample :
    (((Text.applyAll [['a', 'b']] [.insert ⟨0, 2⟩ 'y' "B"]).bind fun u =>
        Text.applyAll u
          (xform_multiple [.insert ⟨0, 0⟩ 'x' "A"] [.insert ⟨0, 2⟩ 'y' "B"]).1) ≠
      ((Text.applyAll [['a', 'b']] [.insert ⟨0, 0⟩ 'x' "A"]).bind fun u =>
        Text.applyAll u
          (xform_multiple [.insert ⟨0, 0⟩ 'x' "A"] [.insert ⟨0, 2⟩ 'y' "B"]).2)) ∧
    (((Text.applyAll [['a', 'b'], ['c', 'd']] [.insert ⟨1, 0⟩ 'x' "A"]).bind fun u =>
        Text.applyAll u
          (xform_multiple [.insert ⟨1, 0⟩ 'x' "A"] [.insert ⟨0, 1⟩ '\n' "B"]).1) ≠
      ((Text.applyAll [['a', 'b'], ['c', 'd']] [.insert ⟨0, 1⟩ '\n' "B"]).bind fun u =>
        Text.applyAll u
          (xform_multiple [.insert ⟨1, 0⟩ 'x' "A"] [.insert ⟨0, 1⟩ '\n' "B"]).2)) := by
  refine ⟨by decide, by decide⟩

/-- C2 (amended): for sequentially valid row-local sequences `L` and `R`
from a common buffer with pairwise distinct authors across the two
sides, with `(L', R') = xform_multiple(L, R)`, applying `L` and then
`L'` (the operations returned for the side that performed `L`) yields
the same buffer as applying `R` and then `R'` (the operations committed
for the side that performed `R`), and no application raises. -/
theorem c2_sequence_convergence (t : TextBuf) (L R : List Operation)
    (hL : SeqValid t L) (hR : SeqValid t R)
    (hdisj : ∀ l ∈ L, ∀ r ∈ R, l.author ≠ r.author) :
    ((Text.applyAll t L).bind fun u =>
        Text.applyAll u (xform_multiple L R).1) =
      ((Text.applyAll t R).bind fun u =>
        Text.applyAll u (xform_multiple L R).2) := by
  obtain ⟨heq, hS1, hS2⟩ := xformOuter_spec L R t hL hR hdisj
  simp only [xform_multiple]
  rw [Text.applyAll_eq_applyAllRL hL, Text.applyAll_eq_applyAllRL hR,
    Option.some_bind, Option.some_bind,
    Text.applyAll_eq_applyAllRL hS1, Text.applyAll_eq_applyAllRL hS2, heq]

theorem c2_sequence_convergence_witness :
    (SeqValid [['a', 'b']] [Operation.insert ⟨0, 0⟩ 'x' "A"] ∧
      SeqValid [['a', 'b']] [Operation.delete ⟨0, 1⟩ "B"] ∧
      (∀ l ∈ [Operation.insert ⟨0, 0⟩ 'x' "A"],
        ∀ r ∈ [Operation.delete ⟨0, 1⟩ "B"],
          Operation.author l ≠ Operation.author r)) ∧
    ((Text.applyAll [['a', 'b']] [Operation.insert ⟨0, 0⟩ 'x' "A"]).bind fun u =>
        Text.applyAll u
          (xform_multiple [Operation.insert ⟨0, 0⟩ 'x' "A"]
            [Operation.delete ⟨0, 1⟩ "B"]).1) =
      ((Text.applyAll [['a', 'b']] [Operation.delete ⟨0, 1⟩ "B"]).bind fun u =>
        Text.applyAll u
          (xform_multiple [Operation.insert ⟨0, 0⟩ 'x' "A"]
            [Operation.delete ⟨0, 1⟩ "B"]).2) :=
  ⟨⟨by decide, by decide, by decide⟩,
    c2_sequence_convergence [['a', 'b']] [Operation.insert ⟨0, 0⟩ 'x' "A"]
      [Operation.delete ⟨0, 1⟩ "B"] (by decide) (by decide) (by decide)⟩

/-- C1 (counterexample): TP1 fails as stated.  On the two-row buffer
"ab"/"cd", the insert of 'x' at (1,0) by "A" and the newline insert at
(0,1) by "B" are both well-formed and valid, yet the two application
orders of the transformed pair produce different buffers ("a"/"b"/"xcd"
versus "a"/"xb"/"cd"). -/
theorem c1_tp1_counterexample :
    Valid [['a', 'b'], ['c', 'd']] (.insert ⟨1, 0⟩ 'x' "A") ∧
    Valid [['a', 'b'], ['c', 'd']] (.insert ⟨0, 1⟩ '\n' "B") ∧
    ((Text.apply [['a', 'b'], ['c', 'd']] (.insert ⟨1, 0⟩ 'x' "A")).bind fun t1 =>
        Text.apply t1 (xform (.insert ⟨0, 1⟩ '\n' "B") (.insert ⟨1, 0⟩ 'x' "A"))) ≠
      ((Text.apply [['a', 'b'], ['c', 'd']] (.insert ⟨0, 1⟩ '\n' "B")).bind fun t1 =>
        Text.apply t1 (xform (.insert ⟨1, 0⟩ 'x' "A") (.insert ⟨0, 1⟩ '\n' "B"))) := by
  refine ⟨by decide, by decide, by decide⟩

/-- C1 (amended): TP1 pairwise convergence holds for every buffer and
every two valid *row-local* concurrent operations with distinct authors
(no newline insert and no sentinel column `-1` row-join delete):
applying `a` and then `xform b a` yields the same buffer state as
applying `b` and then `xform a b`, and neither application raises. -/
theorem c1_tp1_pairwise_convergence (t : TextBuf) (a b : Operation)
    (hva : Valid t a) (hvb : Valid t b) (hra : RowLocal a) (hrb : RowLocal b)
    (hA : a.author ≠ b.author) :
    ((Text.apply t a).bind fun t1 => Text.apply t1 (xform b a)) =
      ((Text.apply t b).bind fun t1 => Text.apply t1 (xform a b)) := by
  obtain ⟨hv1, hr1⟩ := xform_transport t b a hvb hva hrb hra
  obtain ⟨hv2, hr2⟩ := xform_transport t a b hva hvb hra hrb
  rw [Text.apply_eq_applyRL hva hra, Text.apply_eq_applyRL hvb hrb,
    Option.some_bind, Option.some_bind,
    Text.apply_eq_applyRL hv1 hr1, Text.apply_eq_applyRL hv2 hr2,
    conv_core t a b hva hvb hra hrb hA]

theorem c1_tp1_pairwise_convergence_witness :
    (Valid [['a', 'b']] (.insert ⟨0, 0⟩ 'x' "A") ∧
      Valid [['a', 'b']] (.delete ⟨0, 1⟩ "B") ∧
      RowLocal (.insert ⟨0, 0⟩ 'x' "A") ∧
      RowLocal (.delete ⟨0, 1⟩ "B") ∧
      (Operation.insert ⟨0, 0⟩ 'x' "A").author ≠
        (Operation.delete ⟨0, 1⟩ "B").author) ∧
    ((Text.apply [['a', 'b']] (.insert ⟨0, 0⟩ 'x' "A")).bind fun t1 =>
        Text.apply t1 (xform (.delete ⟨0, 1⟩ "B") (.insert ⟨0, 0⟩ 'x' "A"))) =
      ((Text.apply [['a', 'b']] (.delete ⟨0, 1⟩ "B")).bind fun t1 =>
        Text.apply t1 (xform (.insert ⟨0, 0⟩ 'x' "A") (.delete ⟨0, 1⟩ "B"))) :=
  ⟨⟨by decide, by decide, by decide, by decide, by decide⟩,
    c1_tp1_pairwise_convergence [['a', 'b']] (.insert ⟨0, 0⟩ 'x' "A")
      (.delete ⟨0, 1⟩ "B") (by decide) (by decide) (by decide) (by decide)
      (by decide)⟩

theorem c10_transform_only_position_witness :
    (∃ p c a q, (Operation.insert ⟨0, 2⟩ 'x' "A" : Operation) = .insert p c a ∧
      xform (.insert ⟨0, 2⟩ 'x' "A") (.delete ⟨0, 0⟩ "B") = .insert q c a) ∨
    (∃ p a, (Operation.insert ⟨0, 2⟩ 'x' "A" : Operation) = .delete p a ∧
      ((∃ q, xform (.insert ⟨0, 2⟩ 'x' "A") (.delete ⟨0, 0⟩ "B") = .delete q a) ∨
        (∃ p2 a2, (Operation.delete ⟨0, 0⟩ "B" : Operation) = .delete p2 a2 ∧
          is_op_same_pos p p2 ∧
          xform (.insert ⟨0, 2⟩ 'x' "A") (.delete ⟨0, 0⟩ "B") = .identity a))) :=
  c10_transform_only_position (.insert ⟨0, 2⟩ 'x' "A") (.delete ⟨0, 0⟩ "B")
    (fun a h => nomatch h) (fun a h => nomatch h)

end CollabCode
